import Mathlib

/-!
The chunk loader of `src/js/App  Attempt reverse obfuscation.js`.

A shallow embedding of the loader runtime: the readiness queue `modulesToLoad`,
the chunk status table `chunkLoadingStatus`, the module cache `loadedModules`,
the factory table `global`, and the functions `loadChunk`, `loadNextChunk`,
`getChunkPath`, `loadModule`, `loadModule.e` and the settlement handler
`onError`.

Conventions of the embedding.

* Identifiers are strings (a JavaScript property key).
* A table is a map from keys to own values.  Reading a key goes through
  `objRead`, which resolves the names of `Object.prototype` to the inherited
  member.  The status table and the module cache never hold an own property
  under such a name: every write to them is guarded by a read that is falsy or
  by `hasOwnProperty`, and an inherited name fails both.  The factory table is
  read on line 138 only, after a falsy read of the cache under the same key.
  The factory mapping of a payload is data from outside: `installFactories`
  resolves the one inherited name the source reads from it, `hasOwnProperty`
  on line 48, to the payload's own property when it has one.
* A module factory is a script of what it does with its three arguments: it
  writes properties of the exports container it was given, it assigns
  `module.exports`, it calls `require`, it calls `require.e`, it throws.
  Mutation through `require.c` and `require.m` is outside the embedding.
* Side effects survive an exception, so every operation returns the state it
  leaves together with its outcome.
* `State.trace` is a ghost log of the calls the loader makes to code outside
  itself (factories, promise continuations, the script element).
* `loadModule` recurses through factories; it is defined by recursion on a
  bound `fuel` on the nesting depth of `require` calls, and
  `loadModule_fuel_enough` shows that a bound exceeding the number of
  registered factories that are not yet cached is never exhausted.
-/

namespace ICCPlus

/-! ## Values -/

/-- Property names that every plain object inherits from `Object.prototype`. -/
def objectPrototypeKeys : List String :=
  ["constructor", "__defineGetter__", "__defineSetter__", "hasOwnProperty",
   "__lookupGetter__", "__lookupSetter__", "isPrototypeOf", "propertyIsEnumerable",
   "toString", "valueOf", "__proto__", "toLocaleString"]

/-- Result of the property read `o[k]` on a plain object: an own value, a member
inherited from `Object.prototype`, or nothing (`undefined`). -/
inductive Read (α : Type) where
  | own (a : α)
  | inherited
  | absent
  deriving DecidableEq, Repr

/-- The read `o[k]`. -/
def objRead {α : Type} (o : String → Option α) (k : String) : Read α :=
  if k ∈ objectPrototypeKeys then Read.inherited
  else
    match o k with
    | some a => Read.own a
    | none => Read.absent

/-- The write `o[k] = a`. -/
def objSet {α : Type} (o : String → Option α) (k : String) (a : α) : String → Option α :=
  fun x => if x = k then some a else o x

/-- Own values of the chunk status table (lines 7-13): `undefined`, the number
`0`, or the array made on line 161, whose slots 0 and 1 are the continuations of
a promise and whose slot 2, when present, is a promise. -/
inductive ChunkStatus where
  | undefined
  | complete
  | pending (resolve reject : Nat) (deferred : Option Nat)
  deriving DecidableEq, Repr

/-- JavaScript truthiness of a value read from the status table. -/
def statusTruthy : Read ChunkStatus → Bool
  | Read.own (ChunkStatus.pending _ _ _) => true
  | Read.inherited => true
  | _ => false

/-- The module object of lines 131-135. `exports` is the address of the exports
container in the heap. -/
structure ModuleRecord where
  i : String
  l : Bool
  exports : Nat
  deriving DecidableEq, Repr

/-- What `loadModule` returns: an exports container, or `undefined`. -/
inductive Val where
  | undefined
  | object (ref : Nat)
  deriving DecidableEq, Repr

/-- Exceptions: the `TypeError` of the engine (calling or indexing `undefined`),
or an error thrown by a factory. -/
inductive Err where
  | typeError
  | thrown (tag : Nat)
  deriving DecidableEq, Repr

/-- How a call ends. `outOfFuel` is an artefact of the recursion bound, not a
behaviour of the program. -/
inductive Outcome (α : Type) where
  | value (a : α)
  | threw (e : Err)
  | outOfFuel
  deriving DecidableEq, Repr

/-- The error object built on lines 178-181. -/
structure LoadError where
  name : String
  type : String
  request : String
  message : String
  deriving DecidableEq, Repr

/-- What a factory does, as far as the loader can tell. -/
inductive Action where
  | setExport (key : String) (value : Nat)
  | assignExports (props : List (String × Nat))
  | require (id : String)
  | ensure (chunkId : String)
  | raise (tag : Nat)
  deriving DecidableEq, Repr

abbrev Factory := List Action

/-- Calls that leave the loader. -/
inductive Event where
  | install (id : String)
  | resolve (k : Nat)
  | reject (k : Nat) (error : LoadError)
  | invoke (id : String) (l : Bool) (exports : Nat)
  | required (id : String) (v : Val) (props : List (String × Nat))
  | fetch (src : String)
  deriving DecidableEq, Repr

/-- The chunk payload `chunkData` of `loadChunk` (lines 28-30); the third
component may be missing. -/
structure Payload where
  moduleIds : List String
  moduleFactories : List (String × Factory)
  chunkDependencies : Option (List (List String))

/-- The variables of the closure (lines 5-16), the factory table `global`, the
property `loadModule.s`, the heap of exports containers, and the ghost trace. -/
structure State where
  modulesToLoad : List (List String)
  chunkLoadingStatus : String → Option ChunkStatus
  loadedModules : String → Option ModuleRecord
  global : List (String × Factory)
  entryModule : Option String
  heap : Nat → List (String × Nat)
  nextObject : Nat
  nextPromise : Nat
  trace : List Event

/-- The state right after the closure is entered, over a given factory table. -/
def initialState (g : List (String × Factory)) : State where
  modulesToLoad := []
  chunkLoadingStatus := fun k => if k = "app" then some ChunkStatus.complete else none
  loadedModules := fun _ => none
  global := g
  entryModule := none
  heap := fun _ => []
  nextObject := 0
  nextPromise := 0
  trace := []

/-- The read `global[k]`: the most recently installed factory under `k`. -/
def tableGet : List (String × Factory) → String → Option Factory
  | [], _ => none
  | (k, f) :: rest, x => if x = k then some f else tableGet rest x

/-- The write `exports[key] = value`. -/
def heapSet (h : Nat → List (String × Nat)) (ref : Nat) (key : String) (value : Nat) :
    Nat → List (String × Nat) :=
  fun r => if r = ref then (key, value) :: (h r).filter (fun p => p.1 ≠ key) else h r

/-- Own properties of a returned value. -/
def propsOf (s : State) : Val → List (String × Nat)
  | Val.undefined => []
  | Val.object ref => s.heap ref

/-- Append an event to the trace. -/
def State.log (s : State) (e : Event) : State :=
  { s with trace := s.trace ++ [e] }

/-! ## `getChunkPath` (lines 110-116) -/

/-- The literal `chunkMap` of lines 111-113. -/
def chunkMap : String → Option String :=
  fun k => if k = "chunk-2d0e6102" then some "09695d49" else none

/-- Text of the member of `Object.prototype` named `k` when it is concatenated
into a string: `constructor` is the function `Object`, `__proto__` reads an
object, and every other member is a native function of that name. -/
def inheritedText (k : String) : String :=
  if k = "__proto__" then "[object Object]"
  else if k = "constructor" then "function Object() \x7b [native code] \x7d"
  else "function " ++ k ++ "() \x7b [native code] \x7d"

def getChunkPath (chunkName : String) : String :=
  let chunkHash :=
    match objRead chunkMap chunkName with
    | Read.own h => if h = "" then chunkName else h
    | Read.inherited => inheritedText chunkName
    | Read.absent => chunkName
  "js/" ++ chunkHash ++ ".js"

/-! ## `loadModule.e` (lines 148-204) -/

/-- The test of line 39: an own property whose value is truthy. -/
def isPending : Read ChunkStatus → Bool
  | Read.own (ChunkStatus.pending _ _ _) => true
  | _ => false

/-- Slot 2 of a value read from the status table. -/
def deferredOf : Read ChunkStatus → Option Nat
  | Read.own (ChunkStatus.pending _ _ deferred) => deferred
  | _ => none

/-- The assignment `chunkStatus[2] = promise` of line 163: whether the value
held by `chunkStatus` accepts a property assignment. `undefined` does not. -/
def acceptsProperty : Read ChunkStatus → Bool
  | Read.own ChunkStatus.undefined => false
  | Read.absent => false
  | _ => true

def loadModule.e (chunkId : String) (s : State) : State × Outcome (List (Option Nat)) :=
  let chunkStatus := objRead s.chunkLoadingStatus chunkId
  if chunkStatus = Read.own ChunkStatus.complete then (s, Outcome.value [])
  else if statusTruthy chunkStatus then (s, Outcome.value [deferredOf chunkStatus])
  else
    let promise := s.nextPromise
    let s1 : State :=
      { s with
        chunkLoadingStatus :=
          objSet s.chunkLoadingStatus chunkId (ChunkStatus.pending promise promise none)
        nextPromise := promise + 1 }
    if acceptsProperty chunkStatus then
      (s1.log (Event.fetch (getChunkPath chunkId)), Outcome.value [some promise])
    else (s1, Outcome.threw Err.typeError)

/-! ## `loadModule` (lines 124-145) -/

/-- Lines 131-135: a fresh module object with a fresh, empty exports container,
stored in the cache. -/
def newRecord (moduleId : String) (s : State) : State :=
  { s with
    loadedModules :=
      objSet s.loadedModules moduleId { i := moduleId, l := false, exports := s.nextObject }
    heap := fun r => if r = s.nextObject then [] else s.heap r
    nextObject := s.nextObject + 1 }

/-- The module object that `loadModule` holds in its variable `module`: the
record cached under `moduleId`, where line 131 put it. Nothing in the embedding
removes or replaces a cache entry; `exports` stands for the container of line
134 should the entry be missing. -/
def moduleOf (moduleId : String) (exports : Nat) (s : State) : ModuleRecord :=
  match s.loadedModules moduleId with
  | some r => r
  | none => { i := moduleId, l := false, exports := exports }

/-- Line 141, `module.l = true`. -/
def markLoaded (moduleId : String) (record : ModuleRecord) (s : State) : State :=
  { s with loadedModules := objSet s.loadedModules moduleId { record with l := true } }

/-- The property `l` of the module object cached under `moduleId`. -/
def flagOf (s : State) (moduleId : String) : Bool :=
  match s.loadedModules moduleId with
  | some r => r.l
  | none => false

/-- The assignment `module.exports = {...}` made by the factory of `moduleId`:
a fresh container with the given properties replaces the one in the record. -/
def replaceExports (moduleId : String) (props : List (String × Nat)) (s : State) : State :=
  { s with
    loadedModules :=
      match s.loadedModules moduleId with
      | some r => objSet s.loadedModules moduleId { r with exports := s.nextObject }
      | none => s.loadedModules
    heap := fun r => if r = s.nextObject then props else s.heap r
    nextObject := s.nextObject + 1 }

/-- Run the body of the factory of `moduleId`. Its second argument is the
container at `exports`, its first the record cached under `moduleId`, its third
is `require`, which carries `loadModule.e` as its property `e`. -/
def runFactory (require : String → State → State × Outcome Val) (moduleId : String)
    (exports : Nat) : List Action → State → State × Outcome Val
  | [], s => (s, Outcome.value Val.undefined)
  | Action.setExport key value :: rest, s =>
      runFactory require moduleId exports rest { s with heap := heapSet s.heap exports key value }
  | Action.assignExports props :: rest, s =>
      runFactory require moduleId exports rest (replaceExports moduleId props s)
  | Action.require id :: rest, s =>
      match require id s with
      | (s1, Outcome.value v) =>
          runFactory require moduleId exports rest (s1.log (Event.required id v (propsOf s1 v)))
      | (s1, Outcome.threw e) => (s1, Outcome.threw e)
      | (s1, Outcome.outOfFuel) => (s1, Outcome.outOfFuel)
  | Action.ensure chunkId :: rest, s =>
      match loadModule.e chunkId s with
      | (s1, Outcome.value _) => runFactory require moduleId exports rest s1
      | (s1, Outcome.threw e) => (s1, Outcome.threw e)
      | (s1, Outcome.outOfFuel) => (s1, Outcome.outOfFuel)
  | Action.raise tag :: _, s => (s, Outcome.threw (Err.thrown tag))

def loadModule : Nat → String → State → State × Outcome Val
  | 0, _, s => (s, Outcome.outOfFuel)
  | fuel + 1, moduleId, s =>
      match objRead s.loadedModules moduleId with
      | Read.own r => (s, Outcome.value (Val.object r.exports))
      | Read.inherited => (s, Outcome.value Val.undefined)
      | Read.absent =>
          let s1 := newRecord moduleId s
          match tableGet s1.global moduleId with
          | none => (s1, Outcome.threw Err.typeError)
          | some factory =>
              match runFactory (loadModule fuel) moduleId s.nextObject factory
                  (s1.log (Event.invoke moduleId (flagOf s1 moduleId) s.nextObject)) with
              | (s2, Outcome.value _) =>
                  (markLoaded moduleId (moduleOf moduleId s.nextObject s2) s2,
                    Outcome.value (Val.object (moduleOf moduleId s.nextObject s2).exports))
              | (s2, Outcome.threw e) => (s2, Outcome.threw e)
              | (s2, Outcome.outOfFuel) => (s2, Outcome.outOfFuel)

/-! ## `loadNextChunk` (lines 75-102) -/

/-- Lines 81-90: every element of the entry after the first reads `0`. -/
def isChunkReady (s : State) (chunkId : List String) : Bool :=
  (chunkId.drop 1).all
    (fun dependencyId => decide (objRead s.chunkLoadingStatus dependencyId = Read.own ChunkStatus.complete))

/-- The loop of lines 79-98: index and entry at which it breaks. -/
def findReady (s : State) : List (List String) → Option (Nat × List String)
  | [] => none
  | chunkId :: rest =>
      if isChunkReady s chunkId then some (0, chunkId)
      else (findReady s rest).map (fun p => (p.1 + 1, p.2))

/-- `chunkId[0]` used as a property key; the key of `undefined` is "undefined". -/
def entryKey (chunkId : List String) : String :=
  chunkId.headD "undefined"

def loadNextChunk (fuel : Nat) (s : State) : State × Outcome Val :=
  match findReady s s.modulesToLoad with
  | none => (s, Outcome.value Val.undefined)
  | some (i, chunkId) =>
      loadModule fuel (entryKey chunkId)
        { s with modulesToLoad := s.modulesToLoad.eraseIdx i, entryModule := chunkId.head? }

/-! ## `loadChunk` (lines 27-68) -/

/-- Lines 35-44. `resolvedModules` collects slot 0 of every entry that is an own,
truthy value, and the entry becomes `0`. -/
def markResolved : List String → State → List Nat → State × List Nat
  | [], s, resolvedModules => (s, resolvedModules)
  | moduleId :: rest, s, resolvedModules =>
      match objRead s.chunkLoadingStatus moduleId with
      | Read.own (ChunkStatus.pending resolve _ _) =>
          markResolved rest
            { s with chunkLoadingStatus := objSet s.chunkLoadingStatus moduleId ChunkStatus.complete }
            (resolvedModules ++ [resolve])
      | _ => markResolved rest s resolvedModules

/-- One turn of the loop of lines 47-51 when the test of line 48 holds. -/
def installOne (moduleFactories : List (String × Factory)) (s : State) (moduleId : String) : State :=
  match tableGet moduleFactories moduleId with
  | some f => { s with global := (moduleId, f) :: s.global, trace := s.trace ++ [Event.install moduleId] }
  | none => s

/-- A factory called as `moduleFactories.hasOwnProperty(moduleId)`: its first
argument is a string and the other two are `undefined`. Writing an export,
calling `require` or reading `require.e` throws a `TypeError`; assigning a
property of the string is ignored (the source has no strict directive); a body
that ends returns `undefined`. No factory of the embedding returns a value, so
the test of line 48 fails on every key when the call returns. -/
def runGuard : List Action → Option Err
  | [] => none
  | Action.setExport _ _ :: _ => some Err.typeError
  | Action.assignExports _ :: rest => runGuard rest
  | Action.require _ :: _ => some Err.typeError
  | Action.ensure _ :: _ => some Err.typeError
  | Action.raise tag :: _ => some (Err.thrown tag)

/-- Lines 47-51. The test of line 48 is the method call
`moduleFactories.hasOwnProperty(moduleId)`: on a payload without an own
property of that name it is the inherited method and holds for every key of
the loop; on a payload with one it calls that factory, which throws or returns
`undefined`, so that nothing is installed. -/
def installFactories (moduleFactories : List (String × Factory)) (s : State) :
    State × Option Err :=
  match tableGet moduleFactories "hasOwnProperty" with
  | none => ((moduleFactories.map Prod.fst).foldl (installOne moduleFactories) s, none)
  | some guard => (s, runGuard guard)

/-- Lines 59-61: each collected continuation is called, in order. -/
def callResolves (resolvedModules : List Nat) (s : State) : State :=
  { s with trace := s.trace ++ resolvedModules.map Event.resolve }

/-- Line 64. -/
def pushDependencies (chunkDependencies : Option (List (List String))) (s : State) : State :=
  { s with modulesToLoad := s.modulesToLoad ++ chunkDependencies.getD [] }

/-- Lines 28-57: the state left by the two loops, in which the loop of lines
59-61 starts when line 48 did not throw, and the continuations collected. The
callback `p` of line 54 is bound nowhere in the source, so the test of line 54
fails. -/
def beforeResolves (chunkData : Payload) (s : State) : State × List Nat :=
  let marked := markResolved chunkData.moduleIds s []
  ((installFactories chunkData.moduleFactories marked.1).1, marked.2)

def loadChunk (fuel : Nat) (chunkData : Payload) (s : State) : State × Outcome Val :=
  let marked := markResolved chunkData.moduleIds s []
  match installFactories chunkData.moduleFactories marked.1 with
  | (s2, some e) => (s2, Outcome.threw e)
  | (s2, none) =>
      loadNextChunk fuel (pushDependencies chunkData.chunkDependencies (callResolves marked.2 s2))

/-! ## The handler `onError` (lines 175-184) and the loader operations -/

/-- The handler of lines 175-184, for a closure whose variable `chunkStatus`
holds the given value. -/
def onError (chunkId : String) (chunkStatus : Read ChunkStatus) (eventType : String) (s : State) :
    State × Outcome Unit :=
  let src := getChunkPath chunkId
  let error : LoadError :=
    { name := "ChunkLoadError"
      type := eventType
      request := src
      message := "Loading chunk " ++ chunkId ++ " failed.\n(" ++ eventType ++ ": " ++ src ++ ")" }
  match chunkStatus with
  | Read.own (ChunkStatus.pending _ reject _) =>
      ({ s with
          trace := s.trace ++ [Event.reject reject error]
          chunkLoadingStatus := objSet s.chunkLoadingStatus chunkId ChunkStatus.undefined },
        Outcome.value ())
  | _ => (s, Outcome.threw Err.typeError)

/-- The operations that touch the loader state. -/
inductive LoaderOp where
  | deliver (chunkData : Payload)
  | scan
  | ensure (chunkId : String)
  | settle (chunkId : String) (chunkStatus : Read ChunkStatus) (eventType : String)

/-- The state an operation leaves. -/
def LoaderOp.run (fuel : Nat) : LoaderOp → State → State
  | LoaderOp.deliver chunkData, s => (loadChunk fuel chunkData s).1
  | LoaderOp.scan, s => (loadNextChunk fuel s).1
  | LoaderOp.ensure chunkId, s => (loadModule.e chunkId s).1
  | LoaderOp.settle chunkId chunkStatus eventType, s => (onError chunkId chunkStatus eventType s).1

/-- The handler exists only as a closure made in the last branch of
`loadModule.e` (lines 158-199), where `chunkStatus` is neither `0` nor truthy. -/
def LoaderOp.fromSource : LoaderOp → Prop
  | LoaderOp.settle _ chunkStatus _ =>
      chunkStatus ≠ Read.own ChunkStatus.complete ∧ statusTruthy chunkStatus = false
  | _ => True

/-! ## Measures on the trace -/

/-- Number of times the factory registered under `m` was called. -/
def invocations (m : String) (t : List Event) : Nat :=
  t.countP (fun e => match e with
    | Event.invoke id _ _ => decide (id = m)
    | _ => false)

/-- The events logged between two states. -/
def traceSince (s s1 : State) : List Event :=
  s1.trace.drop s.trace.length

/-- Reads of the cache that are truthy on line 126. -/
def cached (s : State) (moduleId : String) : Bool :=
  match objRead s.loadedModules moduleId with
  | Read.absent => false
  | _ => true

/-- Number of registered factories whose module has no cache record. -/
def uncachedFactories (s : State) : Nat :=
  s.global.countP (fun kv => !cached s kv.1)

/-- Lines 126-127: what `loadModule` returns when the read of the cache is
truthy. -/
def cacheValue (s : State) (moduleId : String) : Option Val :=
  match objRead s.loadedModules moduleId with
  | Read.own r => some (Val.object r.exports)
  | Read.inherited => some Val.undefined
  | Read.absent => none

/-- Events that `loadModule` can log when started in `s`: a factory call for a
module that `s` has not cached, or the return of a nested `require`. -/
def NestedEvent (s : State) : Event → Prop
  | Event.invoke id _ _ => cached s id = false
  | Event.required _ _ _ => True
  | _ => False

/-- The status of `k` is unknown: the read of the status table is `undefined`. -/
def statusUnknown (s : State) (k : String) : Prop :=
  objRead s.chunkLoadingStatus k = Read.absent ∨
    objRead s.chunkLoadingStatus k = Read.own ChunkStatus.undefined

/-- What `loadModule` may change: the cache only gains records, the trace only
gains nested events, an entry of the status table either stays as it is or
goes from unknown to the pair made on line 161 (when a factory calls
`loadModule.e`), and the queue, the factory table and `loadModule.s` stay as
they are. -/
structure Grows (s s1 : State) : Prop where
  queue : s1.modulesToLoad = s.modulesToLoad
  status : ∀ k, s1.chunkLoadingStatus k = s.chunkLoadingStatus k ∨
    (statusUnknown s k ∧ ∃ p, s1.chunkLoadingStatus k = some (ChunkStatus.pending p p none))
  table : s1.global = s.global
  entry : s1.entryModule = s.entryModule
  cache : ∀ k, cached s k = true → cached s1 k = true
  events : ∃ t, s1.trace = s.trace ++ t ∧ ∀ e ∈ t, NestedEvent s e

/-- The call of line 138 as `loadModule` makes it for a module without cache
record: the factory `f` runs on the state that holds the new record, with the
new container as its exports. -/
def factoryRun (fuel : Nat) (moduleId : String) (s : State) (f : Factory) : State × Outcome Val :=
  runFactory (loadModule fuel) moduleId s.nextObject f
    ((newRecord moduleId s).log (Event.invoke moduleId false s.nextObject))

/-- A factory is registered under `k`. -/
def registered (s : State) (k : String) : Bool :=
  (tableGet s.global k).isSome

/-- What `loadModule` may change, with the number of calls of each factory: the
factory of `k` is called once if `k` gains its cache record and has a factory,
and not at all otherwise. -/
structure Calls (s s1 : State) : Prop where
  grows : Grows s s1
  counts : ∀ k, invocations k (traceSince s s1) =
    if cached s k = false ∧ cached s1 k = true ∧ registered s k = true then 1 else 0

/-- Records that are cached in `s` read the same in `s1`. -/
def KeepsRecords (s s1 : State) : Prop :=
  ∀ k, cached s k = true → objRead s1.loadedModules k = objRead s.loadedModules k

/-- What the factory of `m` may do to the records cached when it starts: it
leaves those of the other modules alone, and in its own it changes `exports`
at most. -/
def KeepsOthers (m : String) (s s1 : State) : Prop :=
  (∀ k, k ≠ m → cached s k = true → objRead s1.loadedModules k = objRead s.loadedModules k) ∧
  ∀ r, objRead s.loadedModules m = Read.own r →
    ∃ x, objRead s1.loadedModules m = Read.own { r with exports := x }

/-- An action that assigns `module.exports`. -/
def isAssign : Action → Bool
  | Action.assignExports _ => true
  | _ => false

/-- The record cached under `a` holds the container `x`. -/
def HoldsExports (s : State) (a : String) (x : Nat) : Prop :=
  ∃ r, objRead s.loadedModules a = Read.own r ∧ r.exports = x

/-- Every `require(a)` that returned to a running factory between `s` and `s1`
returned the container `x`. -/
def ReturnsOnly (a : String) (x : Nat) (s s1 : State) : Prop :=
  ∀ v p, Event.required a v p ∈ traceSince s s1 → v = Val.object x

/-! ## The continuations a delivery owes, in the words of the specification -/

/-- Slot 0 of an own, truthy entry of the status table: its resolve
continuation. -/
def resolveSlot (s : State) (id : String) : Option Nat :=
  match objRead s.chunkLoadingStatus id with
  | Read.own (ChunkStatus.pending resolve _ _) => some resolve
  | _ => none

/-- The elements of a list, each once, in the order in which they first occur. -/
def firstOccurrences : List String → List String
  | [] => []
  | a :: rest => a :: (firstOccurrences rest).filter (fun x => decide (x ≠ a))

/-- The resolve continuations of the listed identifiers that are pending in
`s`, once each, in the order of `moduleIds`. -/
def pendingResolves (s : State) (moduleIds : List String) : List Nat :=
  (firstOccurrences moduleIds).filterMap (resolveSlot s)

/-! ## Sample data -/

/-- A factory that requires `B` half way through populating its exports. -/
def fnA : Factory :=
  [Action.setExport "a" 1, Action.require "B", Action.setExport "done" 1]

/-- A factory that requires `A` back. -/
def fnB : Factory :=
  [Action.require "A", Action.setExport "b" 2]

/-- The initial state over the factory table `{A: fnA, B: fnB}`. -/
def sampleState : State :=
  initialState [("A", fnA), ("B", fnB)]

/-- The sample state after one `require("A")`. -/
def sampleAfterRequire : State :=
  (loadModule 3 "A" sampleState).1

/-- The sample state after one failed `require("C")`. -/
def sampleAfterFailure : State :=
  (loadModule 1 "C" sampleState).1

/-- A state whose queue holds an entry that waits for `d1` and `d2`, one that
waits for the complete chunk `app`, and one without prerequisites. -/
def sampleQueued : State :=
  { sampleState with modulesToLoad := [["X", "d1", "d2"], ["A", "app"], ["B"]] }

/-- The payload `([A, B], {A: fnA, B: fnB}, [])`. -/
def samplePayload : Payload :=
  { moduleIds := ["A", "B"]
    moduleFactories := [("A", fnA), ("B", fnB)]
    chunkDependencies := some [] }

/-- The sample state after `loadModule.e("A")`, which leaves `A` pending. -/
def samplePending : State :=
  (loadModule.e "A" sampleState).1

/-- A payload that declares two entries without prerequisites. -/
def sampleTwoEntries : Payload :=
  { moduleIds := []
    moduleFactories := [("X", []), ("Y", [])]
    chunkDependencies := some [["X"], ["Y"]] }

/-- The initial state over a table whose only factory writes an export and then
throws. -/
def sampleThrowing : State :=
  initialState [("T", [Action.setExport "x" 1, Action.raise 7])]

/-- The initial state over a table in which the factory of `A` writes `a`,
requires `B` and then assigns a new object to `module.exports`, and the
factory of `B` requires `A`. -/
def sampleReassign : State :=
  initialState
    [("A", [Action.setExport "a" 1, Action.require "B", Action.assignExports [("fresh", 1)]]),
     ("B", [Action.require "A"])]

/-- The payload `([A], {hasOwnProperty: function () {}, A: fnA}, [])`, whose
factory mapping has an own property named `hasOwnProperty`. -/
def sampleShadow : Payload :=
  { moduleIds := ["A"]
    moduleFactories := [("hasOwnProperty", []), ("A", fnA)]
    chunkDependencies := some [] }

/-- The payload `([], {hasOwnProperty: function (m, e) { e.x = 1 }}, [[X, d]])`. -/
def sampleShadowThrows : Payload :=
  { moduleIds := []
    moduleFactories := [("hasOwnProperty", [Action.setExport "x" 1])]
    chunkDependencies := some [["X", "d"]] }

/-- The payload `([], {M: function (m, e, r) { r.e("Z") }}, [[M]])`. -/
def sampleEnsuring : Payload :=
  { moduleIds := []
    moduleFactories := [("M", [Action.ensure "Z"])]
    chunkDependencies := some [["M"]] }

/-- The loader with an empty factory table after `loadModule.e("A")`, which
leaves `A` pending. -/
def sampleEmptyPending : State :=
  (loadModule.e "A" (initialState [])).1

/-- The initial state over a table in which the factory of `A` requires `B`,
the factory of `B` requires `C` and then `A`, and the factory of `C` requires
nothing. -/
def sampleChain : State :=
  initialState
    [("A", [Action.setExport "a" 1, Action.require "B", Action.setExport "done" 1]),
     ("B", [Action.require "C", Action.require "A", Action.setExport "b" 2]),
     ("C", [Action.setExport "c" 3])]

/-! ## Frame of `loadModule` -/

theorem objRead_objSet_same {α : Type} (o : String → Option α) (k : String) (a : α)
    (hk : k ∉ objectPrototypeKeys) : objRead (objSet o k a) k = Read.own a := by
  simp [objRead, objSet, hk]

theorem objRead_objSet_other {α : Type} (o : String → Option α) (k x : String) (a : α)
    (hx : x ≠ k) : objRead (objSet o k a) x = objRead o x := by
  simp [objRead, objSet, hx]

theorem objRead_absent_not_inherited {α : Type} (o : String → Option α) (k : String)
    (h : objRead o k = Read.absent) : k ∉ objectPrototypeKeys := by
  intro hk
  simp [objRead, hk] at h

theorem objRead_own_not_inherited {α : Type} (o : String → Option α) (k : String) (a : α)
    (h : objRead o k = Read.own a) : k ∉ objectPrototypeKeys := by
  intro hk
  simp [objRead, hk] at h

theorem objRead_congr {α : Type} (o o1 : String → Option α) (k : String) (h : o1 k = o k) :
    objRead o1 k = objRead o k := by
  simp [objRead, h]

theorem objRead_own_raw {α : Type} (o : String → Option α) (k : String) (a : α)
    (h : objRead o k = Read.own a) : o k = some a := by
  unfold objRead at h
  split at h
  · exact absurd h (by simp)
  · split at h
    · rename_i b hb
      simp only [Read.own.injEq] at h
      rw [hb, h]
    · exact absurd h (by simp)

theorem cached_objSet (s : State) (m : String) (r : ModuleRecord) (k : String)
    (h : cached s k = true) :
    cached { s with loadedModules := objSet s.loadedModules m r } k = true := by
  unfold cached at h ⊢
  by_cases hk : k ∈ objectPrototypeKeys
  · simp [objRead, hk]
  · by_cases hkm : k = m
    · subst hkm
      simp [objRead, objSet, hk]
    · have : objRead (objSet s.loadedModules m r) k = objRead s.loadedModules k :=
        objRead_objSet_other _ _ _ _ hkm
      simpa [this] using h

theorem cached_of_read_eq (s s1 : State) (k : String)
    (h : objRead s1.loadedModules k = objRead s.loadedModules k) : cached s1 k = cached s k := by
  simp [cached, h]

theorem cached_false_absent (s : State) (m : String) (h : cached s m = false) :
    objRead s.loadedModules m = Read.absent := by
  unfold cached at h
  cases hc : objRead s.loadedModules m with
  | own r => rw [hc] at h; simp at h
  | inherited => rw [hc] at h; simp at h
  | absent => rfl

/-- Writing a record over a record that is cached already changes no answer of
the test of line 126. -/
theorem cached_objSet_cached (s : State) (m : String) (r : ModuleRecord) (k : String)
    (hm : cached s m = true) :
    cached { s with loadedModules := objSet s.loadedModules m r } k = cached s k := by
  by_cases hkm : k = m
  · subst hkm
    rw [hm]
    exact cached_objSet s k r k hm
  · exact cached_of_read_eq _ _ k (objRead_objSet_other _ _ _ _ hkm)

theorem NestedEvent.mono {s s1 : State} (h : ∀ k, cached s k = true → cached s1 k = true)
    {e : Event} (he : NestedEvent s1 e) : NestedEvent s e := by
  cases e with
  | invoke id l x =>
      simp only [NestedEvent] at he ⊢
      cases hc : cached s id with
      | false => rfl
      | true => rw [h id hc] at he; exact absurd he (by decide)
  | required id v p => trivial
  | install id => exact he
  | resolve k => exact he
  | reject k err => exact he
  | fetch src => exact he

/-- A step that leaves the queue, the status table, the factory table,
`loadModule.s` and the trace alone, and forgets no record. -/
theorem Grows.quiet {s s1 : State} (hq : s1.modulesToLoad = s.modulesToLoad)
    (hs : s1.chunkLoadingStatus = s.chunkLoadingStatus) (ht : s1.global = s.global)
    (he : s1.entryModule = s.entryModule) (hc : ∀ k, cached s k = true → cached s1 k = true)
    (htr : s1.trace = s.trace) : Grows s s1 :=
  ⟨hq, fun k => Or.inl (by rw [hs]), ht, he, hc, [], by simp [htr], by simp⟩

theorem Grows.refl (s : State) : Grows s s :=
  Grows.quiet rfl rfl rfl rfl (fun _ h => h) rfl

theorem Grows.trans {s s1 s2 : State} (h1 : Grows s s1) (h2 : Grows s1 s2) : Grows s s2 := by
  obtain ⟨t1, ht1, hn1⟩ := h1.events
  obtain ⟨t2, ht2, hn2⟩ := h2.events
  refine ⟨h2.queue.trans h1.queue, ?_, h2.table.trans h1.table,
    h2.entry.trans h1.entry, fun k hk => h2.cache k (h1.cache k hk), t1 ++ t2, ?_, ?_⟩
  · intro k
    rcases h1.status k with e1 | ⟨u1, p1, hp1⟩
    · rcases h2.status k with e2 | ⟨u2, p2, hp2⟩
      · exact Or.inl (e2.trans e1)
      · right
        refine ⟨?_, p2, hp2⟩
        unfold statusUnknown at u2 ⊢
        rw [objRead_congr _ _ k e1] at u2
        exact u2
    · rcases h2.status k with e2 | ⟨_, p2, hp2⟩
      · exact Or.inr ⟨u1, p1, e2.trans hp1⟩
      · exact Or.inr ⟨u1, p2, hp2⟩
  · rw [ht2, ht1, List.append_assoc]
  · intro e he
    rcases List.mem_append.mp he with h | h
    · exact hn1 e h
    · exact NestedEvent.mono h1.cache (hn2 e h)

theorem Grows.heapSet (s : State) (ref : Nat) (key : String) (value : Nat) :
    Grows s { s with heap := heapSet s.heap ref key value } :=
  Grows.quiet rfl rfl rfl rfl (fun _ h => h) rfl

theorem Grows.log {s s1 : State} (h : Grows s s1) (e : Event) (he : NestedEvent s e) :
    Grows s (s1.log e) := by
  obtain ⟨t, ht, hn⟩ := h.events
  refine ⟨h.queue, h.status, h.table, h.entry, h.cache, t ++ [e], ?_, ?_⟩
  · show s1.trace ++ [e] = s.trace ++ (t ++ [e])
    rw [ht, List.append_assoc]
  · intro x hx
    rcases List.mem_append.mp hx with h1 | h1
    · exact hn x h1
    · rw [List.mem_singleton.mp h1]; exact he

theorem Grows.newRecord (s : State) (m : String) : Grows s (newRecord m s) :=
  Grows.quiet rfl rfl rfl rfl (fun k h => cached_objSet s m _ k h) rfl

theorem Grows.markLoaded (s : State) (m : String) (r : ModuleRecord) :
    Grows s (markLoaded m r s) :=
  Grows.quiet rfl rfl rfl rfl (fun k h => cached_objSet s m _ k h) rfl

theorem cached_replaceExports (m : String) (props : List (String × Nat)) (s : State)
    (k : String) : cached (replaceExports m props s) k = cached s k := by
  cases hr : s.loadedModules m with
  | none =>
      apply cached_of_read_eq
      simp [replaceExports, hr]
  | some r =>
      have hm : cached s m = true := by
        unfold cached
        by_cases hp : m ∈ objectPrototypeKeys
        · simp [objRead, hp]
        · simp [objRead, hp, hr]
      have := cached_objSet_cached s m { r with exports := s.nextObject } k hm
      rw [← this]
      apply cached_of_read_eq
      simp [replaceExports, hr]

theorem Grows.replaceExports (m : String) (props : List (String × Nat)) (s : State) :
    Grows s (replaceExports m props s) :=
  Grows.quiet rfl rfl rfl rfl (fun k h => by rw [cached_replaceExports]; exact h) rfl

theorem flagOf_newRecord (s : State) (m : String) : flagOf (newRecord m s) m = false := by
  simp [flagOf, newRecord, objSet]

/-- On an identifier whose status is unknown, `loadModule.e` stores the two
continuations of a fresh promise and then throws on line 163: the variable
`chunkStatus` still holds the `undefined` read on line 151. Nothing is fetched. -/
theorem ensure_unknown_throws (chunkId : String) (s : State)
    (h : objRead s.chunkLoadingStatus chunkId = Read.absent ∨
      objRead s.chunkLoadingStatus chunkId = Read.own ChunkStatus.undefined) :
    loadModule.e chunkId s =
      ({ s with
          chunkLoadingStatus :=
            objSet s.chunkLoadingStatus chunkId (ChunkStatus.pending s.nextPromise s.nextPromise none)
          nextPromise := s.nextPromise + 1 },
        Outcome.threw Err.typeError) := by
  unfold loadModule.e
  rcases h with h | h <;> simp [h, statusTruthy, acceptsProperty]

/-- On an identifier whose status is not unknown, `loadModule.e` changes
nothing. -/
theorem ensure_known_state (chunkId : String) (s : State)
    (h : ¬ statusUnknown s chunkId) : (loadModule.e chunkId s).1 = s := by
  unfold statusUnknown at h
  unfold loadModule.e
  cases hr : objRead s.chunkLoadingStatus chunkId with
  | own v =>
      cases v with
      | undefined => exact absurd (Or.inr hr) h
      | complete => simp
      | pending r j d => simp [statusTruthy]
  | inherited => simp [statusTruthy]
  | absent => exact absurd (Or.inl hr) h

/-- No call of `loadModule.e` reaches the script element of lines 165-198. -/
theorem ensure_never_fetches (chunkId : String) (s : State) :
    (loadModule.e chunkId s).1.trace = s.trace := by
  by_cases h : statusUnknown s chunkId
  · rw [ensure_unknown_throws chunkId s h]
  · rw [ensure_known_state chunkId s h]

/-- A call of `loadModule.e` made by a factory. -/
theorem ensure_grows (chunkId : String) (s : State) : Grows s (loadModule.e chunkId s).1 := by
  by_cases h : statusUnknown s chunkId
  · rw [ensure_unknown_throws chunkId s h]
    refine ⟨rfl, ?_, rfl, rfl, fun _ hk => hk, [], by simp, by simp⟩
    intro k
    by_cases hk : k = chunkId
    · subst hk
      exact Or.inr ⟨h, s.nextPromise, by simp [objSet]⟩
    · exact Or.inl (by simp [objSet, hk])
  · rw [ensure_known_state chunkId s h]
    exact Grows.refl s

theorem runFactory_grows (req : String → State → State × Outcome Val)
    (hreq : ∀ id s, Grows s (req id s).1) (m : String) (x : Nat) (acts : List Action) :
    ∀ s, Grows s (runFactory req m x acts s).1 := by
  induction acts with
  | nil => intro s; exact Grows.refl s
  | cons a rest ih =>
      intro s
      cases a with
      | setExport key value =>
          simp only [runFactory]
          exact (Grows.heapSet s x key value).trans (ih _)
      | assignExports props =>
          simp only [runFactory]
          exact (Grows.replaceExports m props s).trans (ih _)
      | require id =>
          simp only [runFactory]
          have h1 := hreq id s
          rcases hr : req id s with ⟨s1, o⟩
          rw [hr] at h1
          cases o with
          | value v =>
              exact (h1.log (Event.required id v (propsOf s1 v)) (by simp [NestedEvent])).trans (ih _)
          | threw e => exact h1
          | outOfFuel => exact h1
      | ensure chunkId =>
          simp only [runFactory]
          have h1 := ensure_grows chunkId s
          rcases hr : loadModule.e chunkId s with ⟨s1, o⟩
          rw [hr] at h1
          cases o with
          | value v => exact h1.trans (ih _)
          | threw e => exact h1
          | outOfFuel => exact h1
      | raise tag =>
          simp only [runFactory]
          exact Grows.refl s

/-- A call of `loadModule` on a module whose cache read is truthy. -/
theorem loadModule_cached (n : Nat) (m : String) (s : State) (v : Val)
    (h : cacheValue s m = some v) : loadModule (n + 1) m s = (s, Outcome.value v) := by
  rw [loadModule]
  unfold cacheValue at h
  cases hc : objRead s.loadedModules m with
  | own r => rw [hc] at h; simp only [Option.some.injEq] at h; simp [h]
  | inherited => rw [hc] at h; simp only [Option.some.injEq] at h; simp [h]
  | absent => rw [hc] at h; simp at h

/-- A call of `loadModule` on a module without record and without factory. -/
theorem loadModule_unregistered (n : Nat) (m : String) (s : State)
    (hc : objRead s.loadedModules m = Read.absent) (hf : tableGet s.global m = none) :
    loadModule (n + 1) m s = (newRecord m s, Outcome.threw Err.typeError) := by
  have hf1 : tableGet (newRecord m s).global m = none := hf
  rw [loadModule]
  simp only [hc, hf1]

/-- A call of `loadModule` on a module without record whose factory is `f`:
lines 138-144. -/
theorem loadModule_registered (n : Nat) (m : String) (s : State) (f : Factory)
    (hc : objRead s.loadedModules m = Read.absent) (hf : tableGet s.global m = some f) :
    loadModule (n + 1) m s =
      match factoryRun n m s f with
      | (s2, Outcome.value _) =>
          (markLoaded m (moduleOf m s.nextObject s2) s2,
            Outcome.value (Val.object (moduleOf m s.nextObject s2).exports))
      | (s2, Outcome.threw e) => (s2, Outcome.threw e)
      | (s2, Outcome.outOfFuel) => (s2, Outcome.outOfFuel) := by
  have hf1 : tableGet (newRecord m s).global m = some f := hf
  rw [loadModule]
  simp only [hc, hf1, flagOf_newRecord, factoryRun]

theorem loadModule_grows : ∀ (fuel : Nat) (moduleId : String) (s : State),
    Grows s (loadModule fuel moduleId s).1 := by
  intro fuel
  induction fuel with
  | zero => intro m s; exact Grows.refl s
  | succ n ih =>
      intro m s
      cases hcm : cached s m with
      | true =>
          have : (loadModule (n + 1) m s).1 = s := by
            rw [loadModule]
            unfold cached at hcm
            cases hc : objRead s.loadedModules m with
            | own r => rfl
            | inherited => rfl
            | absent => rw [hc] at hcm; exact absurd hcm (by decide)
          rw [this]
          exact Grows.refl s
      | false =>
          have hc := cached_false_absent s m hcm
          cases hf : tableGet s.global m with
          | none =>
              rw [loadModule_unregistered n m s hc hf]
              exact Grows.newRecord s m
          | some f =>
              rw [loadModule_registered n m s f hc hf]
              have h1 : Grows s ((newRecord m s).log (Event.invoke m false s.nextObject)) :=
                (Grows.newRecord s m).log _ (by simpa [NestedEvent] using hcm)
              have h2 : Grows ((newRecord m s).log (Event.invoke m false s.nextObject))
                  (factoryRun n m s f).1 :=
                runFactory_grows (loadModule n) ih m s.nextObject f _
              rcases hr : factoryRun n m s f with ⟨s2, o⟩
              rw [hr] at h2
              cases o with
              | value v => exact h1.trans (h2.trans (Grows.markLoaded s2 m _))
              | threw e => exact h1.trans h2
              | outOfFuel => exact h1.trans h2

/-- The three ways a call on a registered, uncached module ends. -/
theorem loadModule_absent_registered (n : Nat) (m : String) (s : State) (f : Factory)
    (hc : objRead s.loadedModules m = Read.absent) (hf : tableGet s.global m = some f) :
    ∃ s2 o, factoryRun n m s f = (s2, o) ∧
      Grows ((newRecord m s).log (Event.invoke m false s.nextObject)) s2 ∧
      ((∃ v, o = Outcome.value v ∧ loadModule (n + 1) m s =
          (markLoaded m (moduleOf m s.nextObject s2) s2,
            Outcome.value (Val.object (moduleOf m s.nextObject s2).exports))) ∨
        ((∀ v, o ≠ Outcome.value v) ∧ loadModule (n + 1) m s = (s2, o))) := by
  have hg : Grows ((newRecord m s).log (Event.invoke m false s.nextObject))
      (factoryRun n m s f).1 :=
    runFactory_grows (loadModule n) (loadModule_grows n) m s.nextObject f _
  have hl := loadModule_registered n m s f hc hf
  rcases hr : factoryRun n m s f with ⟨s2, o⟩
  rw [hr] at hg hl
  refine ⟨s2, o, rfl, hg, ?_⟩
  cases o with
  | value v => exact Or.inl ⟨v, rfl, hl⟩
  | threw e => exact Or.inr ⟨by simp, hl⟩
  | outOfFuel => exact Or.inr ⟨by simp, hl⟩

/-! ## The recursion bound is never reached -/

theorem Grows.trace_eq {s s1 : State} (h : Grows s s1) :
    s1.trace = s.trace ++ traceSince s s1 ∧ ∀ e ∈ traceSince s s1, NestedEvent s e := by
  obtain ⟨t, ht, hn⟩ := h.events
  have : traceSince s s1 = t := by simp [traceSince, ht]
  rw [this]
  exact ⟨ht, hn⟩

theorem countP_le_of_imp {α : Type} (p q : α → Bool) (l : List α)
    (h : ∀ x ∈ l, p x = true → q x = true) : l.countP p ≤ l.countP q := by
  induction l with
  | nil => simp
  | cons a rest ih =>
      have hrest := ih (fun x hx => h x (List.mem_cons_of_mem a hx))
      have ha := h a (List.mem_cons_self a rest)
      by_cases hp : p a = true
      · simp [List.countP_cons, hp, ha hp, hrest]
      · by_cases hq : q a = true
        · simp [List.countP_cons, hp, hq]; omega
        · simp [List.countP_cons, hp, hq, hrest]

theorem countP_lt_of_imp {α : Type} (p q : α → Bool) (l : List α)
    (h : ∀ x ∈ l, p x = true → q x = true) (a : α) (ha : a ∈ l) (hpa : p a = false)
    (hqa : q a = true) : l.countP p < l.countP q := by
  induction l with
  | nil => simp at ha
  | cons b rest ih =>
      have hle := countP_le_of_imp p q rest (fun x hx => h x (List.mem_cons_of_mem b hx))
      rcases List.mem_cons.mp ha with hab | hin
      · subst hab
        simp [List.countP_cons, hpa, hqa]; omega
      · have hlt := ih (fun x hx => h x (List.mem_cons_of_mem b hx)) hin
        have hb := h b (List.mem_cons_self b rest)
        by_cases hp : p b = true
        · simp [List.countP_cons, hp, hb hp]; omega
        · by_cases hq : q b = true
          · simp [List.countP_cons, hp, hq]; omega
          · simp [List.countP_cons, hp, hq]; omega

theorem tableGet_mem (g : List (String × Factory)) (m : String) (f : Factory)
    (h : tableGet g m = some f) : (m, f) ∈ g := by
  induction g with
  | nil => simp [tableGet] at h
  | cons kv rest ih =>
      obtain ⟨k, f1⟩ := kv
      by_cases hk : m = k
      · subst hk
        simp [tableGet] at h
        simp [h]
      · simp [tableGet, hk] at h
        exact List.mem_cons_of_mem _ (ih h)

theorem Grows.uncached_le {s s1 : State} (h : Grows s s1) :
    uncachedFactories s1 ≤ uncachedFactories s := by
  unfold uncachedFactories
  rw [h.table]
  apply countP_le_of_imp
  intro kv _ hkv
  cases hc : cached s kv.1 with
  | false => rfl
  | true => rw [h.cache kv.1 hc] at hkv; simp at hkv

theorem cached_newRecord (s : State) (m : String) (hm : m ∉ objectPrototypeKeys) :
    cached (newRecord m s) m = true := by
  simp [cached, newRecord, objRead_objSet_same _ _ _ hm]

theorem uncached_newRecord_lt (s : State) (m : String) (f : Factory)
    (hc : objRead s.loadedModules m = Read.absent) (hf : tableGet s.global m = some f) :
    uncachedFactories (newRecord m s) < uncachedFactories s := by
  have hm := objRead_absent_not_inherited _ _ hc
  unfold uncachedFactories
  have hg : (newRecord m s).global = s.global := rfl
  rw [hg]
  apply countP_lt_of_imp _ _ _ _ (m, f) (tableGet_mem _ _ _ hf)
  · simp [cached_newRecord s m hm]
  · simp [cached, hc]
  · intro kv _ hkv
    cases hc1 : cached s kv.1 with
    | false => rfl
    | true => rw [(Grows.newRecord s m).cache kv.1 hc1] at hkv; simp at hkv

theorem runFactory_fuel_enough (n : Nat) (req : String → State → State × Outcome Val)
    (hreq : ∀ id s, uncachedFactories s < n → (req id s).2 ≠ Outcome.outOfFuel)
    (hg : ∀ id s, Grows s (req id s).1) (m : String) (x : Nat) (acts : List Action) :
    ∀ s, uncachedFactories s < n → (runFactory req m x acts s).2 ≠ Outcome.outOfFuel := by
  induction acts with
  | nil => intro s _; simp [runFactory]
  | cons a rest ih =>
      intro s hs
      cases a with
      | setExport key value =>
          simp only [runFactory]
          exact ih _ (Nat.lt_of_le_of_lt (Grows.heapSet s x key value).uncached_le hs)
      | assignExports props =>
          simp only [runFactory]
          exact ih _ (Nat.lt_of_le_of_lt (Grows.replaceExports m props s).uncached_le hs)
      | require id =>
          simp only [runFactory]
          have h1 := hg id s
          have h2 := hreq id s hs
          rcases hr : req id s with ⟨s1, o⟩
          rw [hr] at h1 h2
          cases o with
          | value v =>
              exact ih _ (Nat.lt_of_le_of_lt
                (h1.log (Event.required id v (propsOf s1 v)) (by simp [NestedEvent])).uncached_le hs)
          | threw e => simp
          | outOfFuel => exact absurd rfl h2
      | ensure chunkId =>
          simp only [runFactory]
          have h1 := ensure_grows chunkId s
          by_cases hu : statusUnknown s chunkId
          · rw [ensure_unknown_throws chunkId s hu]
            simp
          · have hst := ensure_known_state chunkId s hu
            rcases hr : loadModule.e chunkId s with ⟨s1, o⟩
            rw [hr] at hst
            simp only at hst
            subst hst
            cases o with
            | value v => exact ih _ hs
            | threw e => simp
            | outOfFuel =>
                exfalso
                have : (loadModule.e chunkId s1).2 ≠ Outcome.outOfFuel := by
                  unfold loadModule.e
                  simp only []
                  split
                  · simp
                  · split
                    · simp
                    · split <;> simp
                rw [hr] at this
                exact this rfl
      | raise tag => simp [runFactory]

/-- A bound above the number of registered factories without a cache record is
never exhausted: `loadModule` returns or throws. -/
theorem loadModule_fuel_enough : ∀ (fuel : Nat) (moduleId : String) (s : State),
    uncachedFactories s < fuel → (loadModule fuel moduleId s).2 ≠ Outcome.outOfFuel := by
  intro fuel
  induction fuel with
  | zero => intro m s h; exact absurd h (Nat.not_lt_zero _)
  | succ n ih =>
      intro m s hs
      cases hcm : cached s m with
      | true =>
          rw [loadModule]
          unfold cached at hcm
          cases hc : objRead s.loadedModules m with
          | own r => simp
          | inherited => simp
          | absent => rw [hc] at hcm; exact absurd hcm (by decide)
      | false =>
          have hc := cached_false_absent s m hcm
          cases hf : tableGet s.global m with
          | none =>
              rw [loadModule_unregistered n m s hc hf]
              simp
          | some f =>
              rw [loadModule_registered n m s f hc hf]
              have hlt : uncachedFactories ((newRecord m s).log (Event.invoke m false s.nextObject)) < n := by
                have h1 := uncached_newRecord_lt s m f hc hf
                have h2 : uncachedFactories ((newRecord m s).log (Event.invoke m false s.nextObject))
                    = uncachedFactories (newRecord m s) := rfl
                omega
              have h3 : (factoryRun n m s f).2 ≠ Outcome.outOfFuel :=
                runFactory_fuel_enough n (loadModule n) ih (loadModule_grows n) m s.nextObject f
                  _ hlt
              rcases hr : factoryRun n m s f with ⟨s2, o⟩
              rw [hr] at h3
              cases o with
              | value v => simp
              | threw e => simp
              | outOfFuel => exact absurd rfl h3

/-! ## Memoisation in `loadModule` -/

theorem cacheValue_of_cached (s : State) (m : String) (h : cached s m = true) :
    ∃ v, cacheValue s m = some v := by
  unfold cached at h
  unfold cacheValue
  cases hc : objRead s.loadedModules m with
  | own r => exact ⟨_, rfl⟩
  | inherited => exact ⟨_, rfl⟩
  | absent => rw [hc] at h; simp at h

theorem invocations_eq_zero (s : State) (m : String) (t : List Event)
    (hm : cached s m = true) (ht : ∀ e ∈ t, NestedEvent s e) : invocations m t = 0 := by
  unfold invocations
  rw [List.countP_eq_zero]
  intro e he
  have := ht e he
  cases e with
  | invoke id l x =>
      simp only [NestedEvent] at this
      have hne : id ≠ m := by
        intro h
        rw [h, hm] at this
        exact absurd this (by decide)
      simp [hne]
  | required id v p => simp
  | install id => simp
  | resolve k => simp
  | reject k err => simp
  | fetch src => simp

theorem traceSince_self (s : State) : traceSince s s = [] := by
  simp [traceSince]

theorem traceSince_append (s s1 : State) (t : List Event) (h : s1.trace = s.trace ++ t) :
    traceSince s s1 = t := by
  simp [traceSince, h]

/-- A call on a module with a truthy cache read leaves the state alone. -/
theorem loadModule_cached_state (fuel : Nat) (m : String) (s : State)
    (h : cached s m = true) : (loadModule fuel m s).1 = s := by
  cases fuel with
  | zero => rfl
  | succ n =>
      obtain ⟨v, hv⟩ := cacheValue_of_cached s m h
      rw [loadModule_cached n m s v hv]

/-- The record that line 141 marks is the one cached under the module. -/
theorem moduleOf_of_read (m : String) (x : Nat) (s : State) (r : ModuleRecord)
    (h : objRead s.loadedModules m = Read.own r) : moduleOf m x s = r := by
  simp [moduleOf, objRead_own_raw _ _ _ h]

/-- After a call on a registered, uncached module the cache holds its record,
the factory was called once, and a returned value is the cached one. -/
theorem loadModule_first_call (n : Nat) (m : String) (s : State) (f : Factory)
    (hc : objRead s.loadedModules m = Read.absent) (hf : tableGet s.global m = some f) :
    cached (loadModule (n + 1) m s).1 m = true ∧
    invocations m (traceSince s (loadModule (n + 1) m s).1) = 1 ∧
    ∀ v, (loadModule (n + 1) m s).2 = Outcome.value v →
      cacheValue (loadModule (n + 1) m s).1 m = some v := by
  have hm := objRead_absent_not_inherited _ _ hc
  obtain ⟨s2, o, _, hg, hres⟩ := loadModule_absent_registered n m s f hc hf
  have hc1 : cached ((newRecord m s).log (Event.invoke m false s.nextObject)) m = true :=
    cached_newRecord s m hm
  obtain ⟨htr, hnest⟩ := hg.trace_eq
  have hcount : invocations m (traceSince s s2) = 1 := by
    have h0 := invocations_eq_zero _ m _ hc1 hnest
    have hs2 : s2.trace = s.trace ++ (Event.invoke m false s.nextObject ::
        traceSince ((newRecord m s).log (Event.invoke m false s.nextObject)) s2) := by
      rw [htr]
      show (s.trace ++ [Event.invoke m false s.nextObject]) ++ _ = _
      simp
    rw [traceSince_append s s2 _ hs2]
    unfold invocations at h0 ⊢
    rw [List.countP_cons, h0]
    simp
  rcases hres with ⟨v, _, hl⟩ | ⟨hne, hl⟩
  · rw [hl]
    refine ⟨cached_objSet s2 m _ m (hg.cache m hc1), hcount, ?_⟩
    intro v1 hv1
    simp only [Outcome.value.injEq] at hv1
    subst hv1
    simp [cacheValue, markLoaded, objRead_objSet_same _ _ _ hm]
  · rw [hl]
    refine ⟨hg.cache m hc1, hcount, ?_⟩
    intro v1 hv1
    exact absurd hv1 (hne v1)

/-! ## C1, C2: the module registry -/

/-- C1, as stated, fails: in a registry state that already holds the record of
`A`, two calls of `require("A")` both return the cached container, and the
registered factory of `A` is not called at all. -/
theorem C1_counterexample :
    tableGet sampleAfterRequire.global "A" = some fnA ∧
    (loadModule 3 "A" sampleAfterRequire).2 = Outcome.value (Val.object 0) ∧
    (loadModule 3 "A" (loadModule 3 "A" sampleAfterRequire).1).2 = Outcome.value (Val.object 0) ∧
    invocations "A"
      (traceSince sampleAfterRequire (loadModule 3 "A" (loadModule 3 "A" sampleAfterRequire).1).1)
      = 0 := by
  decide

/-- C1 (amended): for a module `m` with a registered factory, in any registry
state, two calls of `require(m)` in a row behave as follows. The second call
changes nothing and returns a value; the first call returns that same value
unless a factory throws; and across the two calls the factory of `m` is called
exactly once when `m` had no cache record before, and not at all when it had. -/
theorem C1_require_twice (fuel fuel2 : Nat) (m : String) (s : State) (f : Factory)
    (hreg : tableGet s.global m = some f) (hfuel : uncachedFactories s < fuel)
    (hfuel2 : 0 < fuel2) :
    (loadModule fuel2 m (loadModule fuel m s).1).1 = (loadModule fuel m s).1 ∧
    (∃ v, (loadModule fuel2 m (loadModule fuel m s).1).2 = Outcome.value v ∧
      ((loadModule fuel m s).2 = Outcome.value v ∨
        ∃ e, (loadModule fuel m s).2 = Outcome.threw e)) ∧
    invocations m (traceSince s (loadModule fuel2 m (loadModule fuel m s).1).1)
      = (if cached s m = true then 0 else 1) := by
  obtain ⟨n, rfl⟩ : ∃ n, fuel = n + 1 := ⟨fuel - 1, by omega⟩
  obtain ⟨k, rfl⟩ : ∃ k, fuel2 = k + 1 := ⟨fuel2 - 1, by omega⟩
  have hnofuel := loadModule_fuel_enough (n + 1) m s hfuel
  cases hcs : cached s m with
  | true =>
      obtain ⟨v, hv⟩ := cacheValue_of_cached s m hcs
      rw [loadModule_cached n m s v hv]
      simp only [loadModule_cached k m s v hv, traceSince_self]
      exact ⟨trivial, ⟨v, rfl, Or.inl rfl⟩, by simp [invocations]⟩
  | false =>
      have hc : objRead s.loadedModules m = Read.absent := by
        unfold cached at hcs
        cases h : objRead s.loadedModules m with
        | own r => rw [h] at hcs; simp at hcs
        | inherited => rw [h] at hcs; simp at hcs
        | absent => rfl
      obtain ⟨hc1, hcount, hval⟩ := loadModule_first_call n m s f hc hreg
      obtain ⟨v, hv⟩ := cacheValue_of_cached _ m hc1
      rw [loadModule_cached k m _ v hv]
      refine ⟨rfl, ⟨v, rfl, ?_⟩, by simpa using hcount⟩
      cases ho : (loadModule (n + 1) m s).2 with
      | value v1 =>
          have := hval v1 ho
          rw [hv] at this
          simp only [Option.some.injEq] at this
          left; rw [this]
      | threw e => right; exact ⟨e, rfl⟩
      | outOfFuel => exact absurd ho hnofuel

/-- C1 (amended) at the sample table: `A` and `B` require each other, the second
`require("A")` returns, and the factory of `A` ran once. -/
theorem C1_require_twice_witness :
    tableGet sampleState.global "A" = some fnA ∧ uncachedFactories sampleState < 3 ∧
    ((loadModule 1 "A" (loadModule 3 "A" sampleState).1).1 = (loadModule 3 "A" sampleState).1 ∧
    (∃ v, (loadModule 1 "A" (loadModule 3 "A" sampleState).1).2 = Outcome.value v ∧
      ((loadModule 3 "A" sampleState).2 = Outcome.value v ∨
        ∃ e, (loadModule 3 "A" sampleState).2 = Outcome.threw e)) ∧
    invocations "A" (traceSince sampleState (loadModule 1 "A" (loadModule 3 "A" sampleState).1).1)
      = (if cached sampleState "A" = true then 0 else 1)) :=
  ⟨by decide, by decide,
    C1_require_twice 3 1 "A" sampleState fnA (by decide) (by decide) (by decide)⟩

/-- C2, as stated, fails: no factory is registered for `C`, yet in the registry
state left by an earlier failed `require("C")` the call returns the container
of the record that the failed call left in the cache. -/
theorem C2_counterexample :
    tableGet sampleAfterFailure.global "C" = none ∧
    (loadModule 1 "C" sampleAfterFailure).2 = Outcome.value (Val.object 0) := by
  decide

/-- C2 (amended): when no factory is registered for `id` and the cache has no
record for `id` (the read on line 126 is falsy), `require(id)` throws, a
`TypeError`, instead of returning. -/
theorem C2_unregistered_throws (fuel : Nat) (id : String) (s : State)
    (hfuel : 0 < fuel) (hreg : tableGet s.global id = none) (hc : cached s id = false) :
    (loadModule fuel id s).2 = Outcome.threw Err.typeError := by
  obtain ⟨n, rfl⟩ : ∃ n, fuel = n + 1 := ⟨fuel - 1, by omega⟩
  have habs : objRead s.loadedModules id = Read.absent := by
    unfold cached at hc
    cases h : objRead s.loadedModules id with
    | own r => rw [h] at hc; simp at hc
    | inherited => rw [h] at hc; simp at hc
    | absent => rfl
  rw [loadModule_unregistered n id s habs hreg]

/-- C2 (amended) at the sample table, where `C` has no factory and no record. -/
theorem C2_unregistered_throws_witness :
    0 < 1 ∧ tableGet sampleState.global "C" = none ∧ cached sampleState "C" = false ∧
    (loadModule 1 "C" sampleState).2 = Outcome.threw Err.typeError :=
  ⟨by decide, by decide, by decide,
    C2_unregistered_throws 1 "C" sampleState (by decide) (by decide) (by decide)⟩

/-! ## C3, C4, C7: the readiness scan -/

theorem isChunkReady_iff (s : State) (chunkId : List String) :
    isChunkReady s chunkId = true ↔
      ∀ d ∈ chunkId.drop 1, objRead s.chunkLoadingStatus d = Read.own ChunkStatus.complete := by
  simp [isChunkReady, List.all_eq_true]

theorem eraseIdx_append_cons {α : Type} (xs : List α) (a : α) (ys : List α) :
    (xs ++ a :: ys).eraseIdx xs.length = xs ++ ys := by
  induction xs with
  | nil => rfl
  | cons x rest ih => simp [List.eraseIdx, ih]

theorem getElem_append_cons {α : Type} (xs : List α) (a : α) (ys : List α) :
    (xs ++ a :: ys)[xs.length]? = some a := by
  induction xs with
  | nil => simp
  | cons x rest ih => simpa using ih

theorem findReady_none (s : State) (q : List (List String)) (h : findReady s q = none) :
    ∀ x ∈ q, isChunkReady s x = false := by
  induction q with
  | nil => simp
  | cons a rest ih =>
      by_cases ha : isChunkReady s a = true
      · simp [findReady, ha] at h
      · simp only [findReady, ha, Bool.false_eq_true, if_false, Option.map_eq_none'] at h
        intro x hx
        rcases List.mem_cons.mp hx with hxa | hxr
        · rw [hxa]; simpa using ha
        · exact ih h x hxr

theorem findReady_some (s : State) (q : List (List String)) (i : Nat) (e : List String)
    (h : findReady s q = some (i, e)) :
    ∃ xs ys, q = xs ++ e :: ys ∧ xs.length = i ∧
      (∀ x ∈ xs, isChunkReady s x = false) ∧ isChunkReady s e = true := by
  induction q generalizing i with
  | nil => simp [findReady] at h
  | cons a rest ih =>
      by_cases ha : isChunkReady s a = true
      · simp only [findReady, ha, if_true, Option.some.injEq, Prod.mk.injEq] at h
        obtain ⟨hi, he⟩ := h
        subst hi; subst he
        exact ⟨[], rest, rfl, rfl, by simp, ha⟩
      · simp only [findReady, ha, Bool.false_eq_true, if_false, Option.map_eq_some'] at h
        obtain ⟨⟨j, e1⟩, hj, hje⟩ := h
        simp only [Prod.mk.injEq] at hje
        obtain ⟨hi, he⟩ := hje
        subst hi; subst he
        obtain ⟨xs, ys, hq, hlen, hxs, hre⟩ := ih j hj
        refine ⟨a :: xs, ys, by simp [hq], by simp [hlen], ?_, hre⟩
        intro x hx
        rcases List.mem_cons.mp hx with hxa | hxr
        · rw [hxa]; simpa using ha
        · exact hxs x hxr

theorem findReady_first (s : State) (xs : List (List String)) (e : List String)
    (ys : List (List String)) (hxs : ∀ x ∈ xs, isChunkReady s x = false)
    (he : isChunkReady s e = true) : findReady s (xs ++ e :: ys) = some (xs.length, e) := by
  induction xs with
  | nil => simp [findReady, he]
  | cons a rest ih =>
      have ha : isChunkReady s a = false := hxs a (List.mem_cons_self a rest)
      have hrest := ih (fun x hx => hxs x (List.mem_cons_of_mem a hx))
      simp [findReady, ha, hrest]

/-- The scan either finds no ready entry and returns `undefined` on the spot, or
removes the first ready entry and calls `loadModule` on its first element. -/
theorem loadNextChunk_cases (fuel : Nat) (s : State) :
    ((∀ x ∈ s.modulesToLoad, isChunkReady s x = false) ∧
      loadNextChunk fuel s = (s, Outcome.value Val.undefined)) ∨
    (∃ xs e ys, s.modulesToLoad = xs ++ e :: ys ∧
      (∀ x ∈ xs, isChunkReady s x = false) ∧ isChunkReady s e = true ∧
      loadNextChunk fuel s = loadModule fuel (entryKey e)
        { s with modulesToLoad := xs ++ ys, entryModule := e.head? }) := by
  cases h : findReady s s.modulesToLoad with
  | none =>
      left
      exact ⟨findReady_none s _ h, by simp [loadNextChunk, h]⟩
  | some p =>
      right
      obtain ⟨i, e⟩ := p
      obtain ⟨xs, ys, hq, hlen, hxs, he⟩ := findReady_some s _ i e h
      refine ⟨xs, e, ys, hq, hxs, he, ?_⟩
      have herase : s.modulesToLoad.eraseIdx i = xs ++ ys := by
        rw [hq, ← hlen, eraseIdx_append_cons]
      simp only [loadNextChunk, h, herase]

/-- C3: when the loop of the scan breaks at index `i` on the entry `chunkId`,
the scan calls `loadModule` on the first element of that entry, and at that
moment every further element of the entry reads complete (`0`) in the status
table; in particular none of them is unknown or pending. -/
theorem C3_dispatch_only_when_complete (fuel : Nat) (s : State) (i : Nat) (chunkId : List String)
    (h : findReady s s.modulesToLoad = some (i, chunkId)) :
    loadNextChunk fuel s = loadModule fuel (entryKey chunkId)
      { s with modulesToLoad := s.modulesToLoad.eraseIdx i, entryModule := chunkId.head? } ∧
    s.modulesToLoad[i]? = some chunkId ∧
    ∀ d ∈ chunkId.drop 1,
      objRead s.chunkLoadingStatus d = Read.own ChunkStatus.complete ∧
      statusTruthy (objRead s.chunkLoadingStatus d) = false ∧
      objRead s.chunkLoadingStatus d ≠ Read.absent ∧
      objRead s.chunkLoadingStatus d ≠ Read.own ChunkStatus.undefined := by
  obtain ⟨xs, ys, hq, hlen, _, he⟩ := findReady_some s _ i chunkId h
  refine ⟨by simp only [loadNextChunk, h], ?_, ?_⟩
  · rw [hq, ← hlen]
    exact getElem_append_cons xs chunkId ys
  · intro d hd
    have := (isChunkReady_iff s chunkId).mp he d hd
    rw [this]
    simp [statusTruthy]

/-- C3 at the sample queue: the scan breaks at index 1, on the entry that waits
for `app`. -/
theorem C3_dispatch_only_when_complete_witness :
    findReady sampleQueued sampleQueued.modulesToLoad = some (1, ["A", "app"]) ∧
    (loadNextChunk 3 sampleQueued = loadModule 3 (entryKey ["A", "app"])
      { sampleQueued with
        modulesToLoad := sampleQueued.modulesToLoad.eraseIdx 1
        entryModule := ["A", "app"].head? } ∧
    sampleQueued.modulesToLoad[1]? = some ["A", "app"] ∧
    ∀ d ∈ ["A", "app"].drop 1,
      objRead sampleQueued.chunkLoadingStatus d = Read.own ChunkStatus.complete ∧
      statusTruthy (objRead sampleQueued.chunkLoadingStatus d) = false ∧
      objRead sampleQueued.chunkLoadingStatus d ≠ Read.absent ∧
      objRead sampleQueued.chunkLoadingStatus d ≠ Read.own ChunkStatus.undefined) :=
  ⟨by decide, C3_dispatch_only_when_complete 3 sampleQueued 1 ["A", "app"] (by decide)⟩

/-- C4: one scan dispatches at most one entry. Either no entry of the queue is
ready, the state is unchanged and the scan returns `undefined`; or the queue is
`xs ++ e :: ys` where no entry of `xs` is ready and `e` is, the scan is the
call of `loadModule` on the first element of `e`, and the queue it leaves is
`xs ++ ys`. -/
theorem C4_scan_takes_first_ready (fuel : Nat) (s : State) :
    ((∀ x ∈ s.modulesToLoad, isChunkReady s x = false) ∧
      loadNextChunk fuel s = (s, Outcome.value Val.undefined)) ∨
    (∃ xs e ys, s.modulesToLoad = xs ++ e :: ys ∧
      (∀ x ∈ xs, isChunkReady s x = false) ∧ isChunkReady s e = true ∧
      loadNextChunk fuel s = loadModule fuel (entryKey e)
        { s with modulesToLoad := xs ++ ys, entryModule := e.head? } ∧
      (loadNextChunk fuel s).1.modulesToLoad = xs ++ ys ∧
      (loadNextChunk fuel s).1.entryModule = e.head?) := by
  rcases loadNextChunk_cases fuel s with h | ⟨xs, e, ys, hq, hxs, he, hl⟩
  · exact Or.inl h
  · right
    refine ⟨xs, e, ys, hq, hxs, he, hl, ?_, ?_⟩
    · rw [hl]; exact (loadModule_grows fuel _ _).queue
    · rw [hl]; exact (loadModule_grows fuel _ _).entry

/-! ## C5, C6, C7: payload delivery -/

theorem markResolved_frame (ids : List String) :
    ∀ (s : State) (acc : List Nat),
      ∃ st, (markResolved ids s acc).1 = { s with chunkLoadingStatus := st } := by
  induction ids with
  | nil => intro s acc; exact ⟨s.chunkLoadingStatus, rfl⟩
  | cons a rest ih =>
      intro s acc
      rw [markResolved]
      split
      · rename_i r j d hread
        obtain ⟨st, hst⟩ := ih
          { s with chunkLoadingStatus := objSet s.chunkLoadingStatus a ChunkStatus.complete }
          (acc ++ [r])
        exact ⟨st, hst⟩
      · exact ih s acc

theorem markResolved_read (ids : List String) :
    ∀ (s : State) (acc : List Nat) (k : String),
      objRead (markResolved ids s acc).1.chunkLoadingStatus k =
        if k ∈ ids ∧ isPending (objRead s.chunkLoadingStatus k) = true
        then Read.own ChunkStatus.complete else objRead s.chunkLoadingStatus k := by
  induction ids with
  | nil => intro s acc k; simp [markResolved]
  | cons a rest ih =>
      intro s acc k
      rw [markResolved]
      split
      · rename_i r j d hread
        rw [ih]
        have ha := objRead_own_not_inherited _ _ _ hread
        by_cases hka : k = a
        · subst hka
          simp [objRead_objSet_same _ _ _ ha, isPending, hread]
        · simp [objRead_objSet_other _ _ _ _ hka, hka]
      · rename_i hread
        rw [ih]
        by_cases hka : k = a
        · subst hka
          have hnp : isPending (objRead s.chunkLoadingStatus k) = false := by
            cases h : objRead s.chunkLoadingStatus k with
            | own v =>
                cases v with
                | undefined => rfl
                | complete => rfl
                | pending r j d => exact absurd h (hread r j d)
            | inherited => rfl
            | absent => rfl
          simp [hnp]
        · simp [hka]

theorem installOne_frame (fs : List (String × Factory)) (s : State) (k : String) :
    ∃ g t, installOne fs s k = { s with global := g, trace := t } := by
  unfold installOne
  split
  · exact ⟨_, _, rfl⟩
  · exact ⟨s.global, s.trace, rfl⟩

theorem install_fold_frame (fs : List (String × Factory)) (ks : List String) :
    ∀ s : State, ∃ g t, ks.foldl (installOne fs) s = { s with global := g, trace := t } := by
  induction ks with
  | nil => intro s; exact ⟨s.global, s.trace, rfl⟩
  | cons a rest ih =>
      intro s
      obtain ⟨g1, t1, h1⟩ := installOne_frame fs s a
      obtain ⟨g2, t2, h2⟩ := ih (installOne fs s a)
      refine ⟨g2, t2, ?_⟩
      rw [List.foldl_cons, h2, h1]

theorem install_fold_table (fs : List (String × Factory)) (ks : List String)
    (hks : ∀ x ∈ ks, ∃ f, tableGet fs x = some f) (k : String) :
    ∀ s : State, tableGet (ks.foldl (installOne fs) s).global k =
      if k ∈ ks then tableGet fs k else tableGet s.global k := by
  induction ks with
  | nil => intro s; simp
  | cons a rest ih =>
      intro s
      rw [List.foldl_cons, ih (fun x hx => hks x (List.mem_cons_of_mem a hx))]
      obtain ⟨f, hf⟩ := hks a (List.mem_cons_self a rest)
      by_cases hkr : k ∈ rest
      · simp [hkr]
      · by_cases hka : k = a
        · subst hka
          simp [hkr, installOne, hf, tableGet]
        · simp [hkr, hka, installOne, hf, tableGet]

theorem install_fold_trace (fs : List (String × Factory)) (ks : List String)
    (hks : ∀ x ∈ ks, ∃ f, tableGet fs x = some f) :
    ∀ s : State, (ks.foldl (installOne fs) s).trace = s.trace ++ ks.map Event.install := by
  induction ks with
  | nil => intro s; simp
  | cons a rest ih =>
      intro s
      rw [List.foldl_cons, ih (fun x hx => hks x (List.mem_cons_of_mem a hx))]
      obtain ⟨f, hf⟩ := hks a (List.mem_cons_self a rest)
      simp [installOne, hf]

theorem tableGet_keys (fs : List (String × Factory)) :
    ∀ x ∈ fs.map Prod.fst, ∃ f, tableGet fs x = some f := by
  induction fs with
  | nil => simp
  | cons kv rest ih =>
      obtain ⟨k, f⟩ := kv
      intro x hx
      by_cases hxk : x = k
      · exact ⟨f, by simp [tableGet, hxk]⟩
      · simp only [List.map_cons, List.mem_cons, hxk, false_or] at hx
        obtain ⟨f1, hf1⟩ := ih x hx
        exact ⟨f1, by simp [tableGet, hxk, hf1]⟩

theorem tableGet_key_mem (fs : List (String × Factory)) (k : String) (f : Factory)
    (h : tableGet fs k = some f) : k ∈ fs.map Prod.fst :=
  List.mem_map.mpr ⟨(k, f), tableGet_mem fs k f h, rfl⟩

/-- On a payload whose factory mapping has no own property `hasOwnProperty`,
the test of line 48 is the inherited method: the loop installs every key and
does not throw. -/
theorem installFactories_inherited (fs : List (String × Factory)) (s : State)
    (hfs : tableGet fs "hasOwnProperty" = none) :
    installFactories fs s = ((fs.map Prod.fst).foldl (installOne fs) s, none) := by
  unfold installFactories
  rw [hfs]

/-- Lines 47-51 touch the factory table and nothing else of the loader. -/
theorem installFactories_frame (fs : List (String × Factory)) (s : State) :
    ∃ g t, (installFactories fs s).1 = { s with global := g, trace := t } := by
  unfold installFactories
  split
  · exact install_fold_frame fs _ s
  · exact ⟨s.global, s.trace, rfl⟩

/-- After lines 47-51 the table holds every factory of such a payload. -/
theorem installFactories_table (fs : List (String × Factory)) (s : State) (k : String)
    (f : Factory) (hfs : tableGet fs "hasOwnProperty" = none) (h : tableGet fs k = some f) :
    tableGet (installFactories fs s).1.global k = some f := by
  rw [installFactories_inherited fs s hfs]
  show tableGet ((fs.map Prod.fst).foldl (installOne fs) s).global k = some f
  rw [install_fold_table fs _ (tableGet_keys fs) k s]
  simp [tableGet_key_mem fs k f h, h]

/-- What the scan may change outside the queue and `loadModule.s`. -/
theorem loadNextChunk_frame (fuel : Nat) (s : State) :
    (∀ k, (loadNextChunk fuel s).1.chunkLoadingStatus k = s.chunkLoadingStatus k ∨
      (statusUnknown s k ∧
        ∃ p, (loadNextChunk fuel s).1.chunkLoadingStatus k = some (ChunkStatus.pending p p none))) ∧
    (loadNextChunk fuel s).1.global = s.global ∧
    (∀ k, cached s k = true → cached (loadNextChunk fuel s).1 k = true) ∧
    ∃ t, (loadNextChunk fuel s).1.trace = s.trace ++ t ∧ ∀ e ∈ t, NestedEvent s e := by
  rcases loadNextChunk_cases fuel s with ⟨_, h⟩ | ⟨xs, e, ys, _, _, _, h⟩
  · rw [h]
    exact ⟨fun _ => Or.inl rfl, rfl, fun _ hk => hk, [], by simp, by simp⟩
  · rw [h]
    have hg := loadModule_grows fuel (entryKey e)
      { s with modulesToLoad := xs ++ ys, entryModule := e.head? }
    exact ⟨hg.status, hg.table, hg.cache, hg.events⟩

/-- An entry of the status table that is not unknown reads the same after the
scan, and an unknown one reads unknown or pending. -/
theorem loadNextChunk_read (fuel : Nat) (s : State) (k : String) :
    objRead (loadNextChunk fuel s).1.chunkLoadingStatus k = objRead s.chunkLoadingStatus k ∨
    (statusUnknown s k ∧
      isPending (objRead (loadNextChunk fuel s).1.chunkLoadingStatus k) = true) := by
  rcases (loadNextChunk_frame fuel s).1 k with h | ⟨hu, p, hp⟩
  · exact Or.inl (objRead_congr _ _ k h)
  · right
    refine ⟨hu, ?_⟩
    have hk : k ∉ objectPrototypeKeys := by
      rcases hu with hu | hu
      · exact objRead_absent_not_inherited _ _ hu
      · exact objRead_own_not_inherited _ _ _ hu
    simp [objRead, hk, hp, isPending]

/-- The state in which the scan of line 67 starts has the status table made by
lines 35-44. -/
theorem beforeResolves_status (chunkData : Payload) (s : State) :
    (beforeResolves chunkData s).1.chunkLoadingStatus =
      (markResolved chunkData.moduleIds s []).1.chunkLoadingStatus := by
  unfold beforeResolves
  obtain ⟨g, t, h⟩ := installFactories_frame chunkData.moduleFactories
    (markResolved chunkData.moduleIds s []).1
  simp only [h]

/-- A delivery in which line 48 does not throw is the scan of line 67. -/
theorem loadChunk_inherited (fuel : Nat) (chunkData : Payload) (s : State)
    (hfs : tableGet chunkData.moduleFactories "hasOwnProperty" = none) :
    loadChunk fuel chunkData s =
      loadNextChunk fuel (pushDependencies chunkData.chunkDependencies
        (callResolves (beforeResolves chunkData s).2 (beforeResolves chunkData s).1)) := by
  unfold loadChunk beforeResolves
  simp only [installFactories_inherited _ _ hfs]

/-- The status table that `loadChunk` leaves is the one made by lines 35-44,
but for unknown entries that a factory run by the scan made pending. -/
theorem loadChunk_status (fuel : Nat) (chunkData : Payload) (s : State) (k : String) :
    objRead (loadChunk fuel chunkData s).1.chunkLoadingStatus k =
      objRead (markResolved chunkData.moduleIds s []).1.chunkLoadingStatus k ∨
    (statusUnknown (markResolved chunkData.moduleIds s []).1 k ∧
      isPending (objRead (loadChunk fuel chunkData s).1.chunkLoadingStatus k) = true) := by
  obtain ⟨g, t, h⟩ := installFactories_frame chunkData.moduleFactories
    (markResolved chunkData.moduleIds s []).1
  unfold loadChunk
  simp only []
  rcases hi : installFactories chunkData.moduleFactories
    (markResolved chunkData.moduleIds s []).1 with ⟨s2, o⟩
  rw [hi] at h
  simp only at h
  cases o with
  | some e =>
      left
      simp only [h]
  | none =>
      simp only []
      rcases loadNextChunk_read fuel (pushDependencies chunkData.chunkDependencies
        (callResolves (markResolved chunkData.moduleIds s []).2 s2)) k with hr | ⟨hu, hp⟩
      · left
        rw [hr, h]
        rfl
      · right
        refine ⟨?_, hp⟩
        rw [h] at hu
        exact hu

/-- A listed identifier whose status is unknown is not complete after the
delivery, whatever the payload. -/
theorem loadChunk_unknown_not_complete (fuel : Nat) (chunkData : Payload) (s : State)
    (id : String) (hu : statusUnknown s id) :
    objRead (loadChunk fuel chunkData s).1.chunkLoadingStatus id ≠
      Read.own ChunkStatus.complete := by
  have hnp : isPending (objRead s.chunkLoadingStatus id) = false := by
    rcases hu with hu | hu <;> simp [hu, isPending]
  have hm : objRead (markResolved chunkData.moduleIds s []).1.chunkLoadingStatus id =
      objRead s.chunkLoadingStatus id := by
    rw [markResolved_read]
    simp [hnp]
  rcases loadChunk_status fuel chunkData s id with h | ⟨_, hp⟩
  · rw [h, hm]
    rcases hu with hu | hu <;> simp [hu]
  · intro hc
    rw [hc] at hp
    simp [isPending] at hp

/-- C5 (defect of lines 39-43): the delivery of `([A, B], {A: fnA, B: fnB}, [])`
to a loader that never requested `A` or `B` returns normally and installs both
factories, and the status of `A` and of `B` is still unknown afterwards, not
complete: the assignment of line 42 sits inside the test of line 39. -/
theorem C5_listed_unknown_at_input :
    "A" ∈ samplePayload.moduleIds ∧ "B" ∈ samplePayload.moduleIds ∧
    (loadChunk 3 samplePayload (initialState [])).2 = Outcome.value Val.undefined ∧
    tableGet (loadChunk 3 samplePayload (initialState [])).1.global "A" = some fnA ∧
    tableGet (loadChunk 3 samplePayload (initialState [])).1.global "B" = some fnB ∧
    objRead (loadChunk 3 samplePayload (initialState [])).1.chunkLoadingStatus "A" = Read.absent ∧
    objRead (loadChunk 3 samplePayload (initialState [])).1.chunkLoadingStatus "B" = Read.absent ∧
    objRead (loadChunk 3 samplePayload (initialState [])).1.chunkLoadingStatus "A"
      ≠ Read.own ChunkStatus.complete := by
  decide

theorem markResolved_acc (ids : List String) :
    ∀ (s : State) (acc : List Nat), ∀ x ∈ acc, x ∈ (markResolved ids s acc).2 := by
  induction ids with
  | nil => intro s acc x hx; exact hx
  | cons a rest ih =>
      intro s acc x hx
      rw [markResolved]
      split
      · exact ih _ _ x (List.mem_append_left _ hx)
      · exact ih s acc x hx

/-- Slot 0 of every listed pending entry is among the continuations collected
by lines 35-44. -/
theorem markResolved_collects (ids : List String) :
    ∀ (s : State) (acc : List Nat) (id : String) (r j : Nat) (d : Option Nat),
      id ∈ ids → objRead s.chunkLoadingStatus id = Read.own (ChunkStatus.pending r j d) →
      r ∈ (markResolved ids s acc).2 := by
  induction ids with
  | nil => intro s acc id r j d hid; simp at hid
  | cons a rest ih =>
      intro s acc id r j d hid hread
      by_cases hia : id = a
      · subst hia
        rw [markResolved]
        simp only [hread]
        exact markResolved_acc rest _ _ r (by simp)
      · have hrest : id ∈ rest := by
          rcases List.mem_cons.mp hid with h | h
          · exact absurd h hia
          · exact h
        rw [markResolved]
        split
        · apply ih _ _ id r j d hrest
          show objRead (objSet s.chunkLoadingStatus a ChunkStatus.complete) id = _
          rw [objRead_objSet_other _ _ _ _ hia]
          exact hread
        · exact ih s acc id r j d hrest hread

theorem beforeResolves_trace (chunkData : Payload) (s : State)
    (hfs : tableGet chunkData.moduleFactories "hasOwnProperty" = none) :
    (beforeResolves chunkData s).1.trace =
      s.trace ++ (chunkData.moduleFactories.map Prod.fst).map Event.install := by
  unfold beforeResolves
  simp only [installFactories_inherited _ _ hfs]
  rw [install_fold_trace _ _ (tableGet_keys _)]
  obtain ⟨st, hst⟩ := markResolved_frame chunkData.moduleIds s []
  rw [hst]

/-- The calls that leave the loader in a delivery in which line 48 does not
throw: one installation per key, the collected continuations, then what the
scan does, which installs nothing and resolves nothing. -/
theorem loadChunk_trace (fuel : Nat) (chunkData : Payload) (s : State)
    (hfs : tableGet chunkData.moduleFactories "hasOwnProperty" = none) :
    ∃ rest, (loadChunk fuel chunkData s).1.trace =
        s.trace ++ (chunkData.moduleFactories.map Prod.fst).map Event.install
          ++ (beforeResolves chunkData s).2.map Event.resolve ++ rest ∧
      ∀ e ∈ rest, (∀ k, e ≠ Event.install k) ∧ (∀ r, e ≠ Event.resolve r) := by
  have hframe := loadNextChunk_frame fuel
    (pushDependencies chunkData.chunkDependencies
      (callResolves (beforeResolves chunkData s).2 (beforeResolves chunkData s).1))
  obtain ⟨t, ht, hn⟩ := hframe.2.2.2
  refine ⟨t, ?_, ?_⟩
  · rw [loadChunk_inherited fuel chunkData s hfs, ht, ← beforeResolves_trace chunkData s hfs]
    rfl
  · intro e he
    have := hn e he
    cases e with
    | invoke id l x => exact ⟨by simp, by simp⟩
    | required id v p => exact ⟨by simp, by simp⟩
    | install id => exact absurd this (by simp [NestedEvent])
    | resolve k => exact absurd this (by simp [NestedEvent])
    | reject k err => exact ⟨by simp, by simp⟩
    | fetch src => exact ⟨by simp, by simp⟩

/-- C6, as stated, fails: the payload `([A], {hasOwnProperty: function () {},
A: fnA}, [])` is delivered to a loader with an empty factory table in which `A`
is pending. The test of line 48 calls the payload's own `hasOwnProperty`, which
returns `undefined`, so no factory is installed; the resolve continuation of
`A` is called all the same, and `A` has no factory in the table then or when
`loadChunk` ends. -/
theorem C6_counterexample :
    tableGet sampleShadow.moduleFactories "A" = some fnA ∧
    objRead sampleEmptyPending.chunkLoadingStatus "A"
      = Read.own (ChunkStatus.pending 0 0 none) ∧
    (beforeResolves sampleShadow sampleEmptyPending).2 = [0] ∧
    tableGet (beforeResolves sampleShadow sampleEmptyPending).1.global "A" = none ∧
    (loadChunk 3 sampleShadow sampleEmptyPending).2 = Outcome.value Val.undefined ∧
    (loadChunk 3 sampleShadow sampleEmptyPending).1.trace = [Event.resolve 0] ∧
    tableGet (loadChunk 3 sampleShadow sampleEmptyPending).1.global "A" = none := by
  decide

/-- C6 (amended): in a delivery through `loadChunk` of a payload whose factory
mapping has no own property named `hasOwnProperty`, when the loop of lines 59-61
starts to call the resolve continuations, every factory of the payload is
already in the factory table under its identifier, and it is still there when
`loadChunk` ends. The calls leave the loader in this order: first one
installation per key of the payload, then the resolve continuation of every
listed pending entry, then whatever the scan does, which installs nothing and
resolves nothing. -/
theorem C6_factories_before_resolves (fuel : Nat) (chunkData : Payload) (s : State)
    (hfs : tableGet chunkData.moduleFactories "hasOwnProperty" = none) :
    (∀ k f, tableGet chunkData.moduleFactories k = some f →
      tableGet (beforeResolves chunkData s).1.global k = some f ∧
      tableGet (loadChunk fuel chunkData s).1.global k = some f) ∧
    (∀ id r j d, id ∈ chunkData.moduleIds →
      objRead s.chunkLoadingStatus id = Read.own (ChunkStatus.pending r j d) →
      r ∈ (beforeResolves chunkData s).2) ∧
    ∃ rest, (loadChunk fuel chunkData s).1.trace =
        s.trace ++ (chunkData.moduleFactories.map Prod.fst).map Event.install
          ++ (beforeResolves chunkData s).2.map Event.resolve ++ rest ∧
      ∀ e ∈ rest, (∀ k, e ≠ Event.install k) ∧ (∀ r, e ≠ Event.resolve r) := by
  refine ⟨?_, ?_, loadChunk_trace fuel chunkData s hfs⟩
  · intro k f hk
    have h1 : tableGet (beforeResolves chunkData s).1.global k = some f :=
      installFactories_table _ _ k f hfs hk
    refine ⟨h1, ?_⟩
    rw [loadChunk_inherited fuel chunkData s hfs, (loadNextChunk_frame fuel _).2.1]
    exact h1
  · intro id r j d hid hread
    exact markResolved_collects _ s [] id r j d hid hread

/-- C6 (amended) on the payload `([A, B], {A: fnA, B: fnB}, [])` delivered to a
loader with an empty factory table in which `A` is pending: both factories are
in the table before the continuation of `A` is called. -/
theorem C6_factories_before_resolves_witness :
    tableGet samplePayload.moduleFactories "hasOwnProperty" = none ∧
    tableGet samplePayload.moduleFactories "A" = some fnA ∧
    tableGet sampleEmptyPending.global "A" = none ∧
    (beforeResolves samplePayload sampleEmptyPending).2 = [0] ∧
    (tableGet (beforeResolves samplePayload sampleEmptyPending).1.global "A" = some fnA ∧
      tableGet (loadChunk 3 samplePayload sampleEmptyPending).1.global "A" = some fnA) :=
  ⟨by decide, by decide, by decide, by decide,
    (C6_factories_before_resolves 3 samplePayload sampleEmptyPending (by decide)).1
      "A" fnA (by decide)⟩

/-- C7, as stated, fails: a delivery appends the entries `[X]` and `[Y]`, neither
with a prerequisite, to an empty queue; the scan that follows dispatches `X`
alone, and `[Y]` is still queued and `Y` not loaded when it is over. -/
theorem C7_counterexample :
    (loadChunk 3 sampleTwoEntries (initialState [])).1.modulesToLoad = [["Y"]] ∧
    (loadChunk 3 sampleTwoEntries (initialState [])).1.entryModule = some "X" ∧
    cached (loadChunk 3 sampleTwoEntries (initialState [])).1 "X" = true ∧
    cached (loadChunk 3 sampleTwoEntries (initialState [])).1 "Y" = false := by
  decide

/-- C7 (amended): a queue entry that consists of its chunk identifier alone is
dispatched by the next scan provided no entry ahead of it in the queue is
ready: the scan removes it and is the call of `loadModule` on its identifier. -/
theorem C7_no_prerequisite_first_ready (fuel : Nat) (s : State) (xs : List (List String))
    (id : String) (ys : List (List String)) (hq : s.modulesToLoad = xs ++ [id] :: ys)
    (hxs : ∀ x ∈ xs, isChunkReady s x = false) :
    loadNextChunk fuel s =
      loadModule fuel id { s with modulesToLoad := xs ++ ys, entryModule := some id } ∧
    (loadNextChunk fuel s).1.modulesToLoad = xs ++ ys ∧
    (loadNextChunk fuel s).1.entryModule = some id := by
  have hfind : findReady s s.modulesToLoad = some (xs.length, [id]) := by
    rw [hq]
    exact findReady_first s xs [id] ys hxs (by simp [isChunkReady])
  have hl : loadNextChunk fuel s =
      loadModule fuel id { s with modulesToLoad := xs ++ ys, entryModule := some id } := by
    simp only [loadNextChunk, hfind]
    rw [hq, eraseIdx_append_cons]
    rfl
  refine ⟨hl, ?_, ?_⟩
  · rw [hl]; exact (loadModule_grows fuel _ _).queue
  · rw [hl]; exact (loadModule_grows fuel _ _).entry

/-- C7 (amended) at the sample queue with the entry `[B]` appended behind an
entry that waits for `d1` and `d2`. -/
theorem C7_no_prerequisite_first_ready_witness :
    ({ sampleState with modulesToLoad := [["X", "d1", "d2"]] ++ ["B"] :: [] } : State).modulesToLoad
      = [["X", "d1", "d2"]] ++ ["B"] :: [] ∧
    (loadNextChunk 3 { sampleState with modulesToLoad := [["X", "d1", "d2"]] ++ ["B"] :: [] }).1.modulesToLoad
      = [["X", "d1", "d2"]] ++ [] :=
  ⟨rfl, (C7_no_prerequisite_first_ready 3
    { sampleState with modulesToLoad := [["X", "d1", "d2"]] ++ ["B"] :: [] }
    [["X", "d1", "d2"]] "B" [] rfl (by decide)).2.1⟩

/-! ## C8, C9, C10: the status table under `loadModule.e` and `onError` -/

theorem ensure_keeps_complete (chunkId : String) (s : State) (c : String)
    (hc : objRead s.chunkLoadingStatus c = Read.own ChunkStatus.complete) :
    objRead (loadModule.e chunkId s).1.chunkLoadingStatus c = Read.own ChunkStatus.complete := by
  by_cases hcc : c = chunkId
  · subst hcc
    simp [loadModule.e, hc]
  · unfold loadModule.e
    simp only []
    split
    · exact hc
    · split
      · exact hc
      · split
        · show objRead (objSet s.chunkLoadingStatus chunkId _) c = _
          rw [objRead_objSet_other _ _ _ _ hcc]
          exact hc
        · show objRead (objSet s.chunkLoadingStatus chunkId _) c = _
          rw [objRead_objSet_other _ _ _ _ hcc]
          exact hc

/-- The handler of a closure made by `loadModule.e` throws on line 182 before it
touches the status table. -/
theorem onError_fromSource (chunkId : String) (chunkStatus : Read ChunkStatus)
    (eventType : String) (s : State)
    (h : chunkStatus ≠ Read.own ChunkStatus.complete ∧ statusTruthy chunkStatus = false) :
    onError chunkId chunkStatus eventType s = (s, Outcome.threw Err.typeError) := by
  obtain ⟨h1, h2⟩ := h
  cases chunkStatus with
  | own v =>
      cases v with
      | undefined => rfl
      | complete => exact absurd rfl h1
      | pending r j d => simp [statusTruthy] at h2
  | inherited => simp [statusTruthy] at h2
  | absent => rfl

/-- C8: a chunk identifier whose status is complete (`0`) is still complete after
any single loader operation: a delivery through `loadChunk`, a readiness scan, a
call of `loadModule.e` on any identifier, or a run of the handler `onError` of a
closure that `loadModule.e` can make. -/
theorem C8_complete_stays_complete (fuel : Nat) (op : LoaderOp) (s : State) (c : String)
    (hop : op.fromSource)
    (hc : objRead s.chunkLoadingStatus c = Read.own ChunkStatus.complete) :
    objRead (op.run fuel s).chunkLoadingStatus c = Read.own ChunkStatus.complete := by
  cases op with
  | deliver chunkData =>
      show objRead (loadChunk fuel chunkData s).1.chunkLoadingStatus c = _
      have hm : objRead (markResolved chunkData.moduleIds s []).1.chunkLoadingStatus c =
          Read.own ChunkStatus.complete := by
        rw [markResolved_read]
        simp [hc, isPending]
      rcases loadChunk_status fuel chunkData s c with h | ⟨hu, _⟩
      · rw [h, hm]
      · rcases hu with hu | hu
        · rw [hm] at hu; exact absurd hu (by simp)
        · rw [hm] at hu; exact absurd hu (by simp)
  | scan =>
      show objRead (loadNextChunk fuel s).1.chunkLoadingStatus c = _
      rcases loadNextChunk_read fuel s c with h | ⟨hu, _⟩
      · rw [h]; exact hc
      · rcases hu with hu | hu
        · rw [hc] at hu; exact absurd hu (by simp)
        · rw [hc] at hu; exact absurd hu (by simp)
  | ensure chunkId => exact ensure_keeps_complete chunkId s c hc
  | settle chunkId chunkStatus eventType =>
      show objRead (onError chunkId chunkStatus eventType s).1.chunkLoadingStatus c = _
      rw [onError_fromSource chunkId chunkStatus eventType s hop]
      exact hc

/-- C8 on the chunk `app`, complete from the start, under the handler of a
closure for `app` and under a delivery that lists `app`. -/
theorem C8_complete_stays_complete_witness :
    (LoaderOp.settle "app" Read.absent "load").fromSource ∧
    objRead sampleState.chunkLoadingStatus "app" = Read.own ChunkStatus.complete ∧
    objRead ((LoaderOp.settle "app" Read.absent "load").run 3 sampleState).chunkLoadingStatus "app"
      = Read.own ChunkStatus.complete :=
  ⟨⟨by decide, rfl⟩, by decide,
    C8_complete_stays_complete 3 (LoaderOp.settle "app" Read.absent "load") sampleState "app"
      ⟨by decide, rfl⟩ (by decide)⟩

/-- C9, the code at the failing input: in the initial state the status of
`chunk-2d0e6102` is unknown; `loadModule.e("chunk-2d0e6102")` throws a
`TypeError`, leaves a pending entry that holds the two continuations but no
deferred in slot 2, and fetches nothing. -/
theorem C9_ensure_unknown_at_input :
    objRead sampleState.chunkLoadingStatus "chunk-2d0e6102" = Read.absent ∧
    (loadModule.e "chunk-2d0e6102" sampleState).2 = Outcome.threw Err.typeError ∧
    objRead (loadModule.e "chunk-2d0e6102" sampleState).1.chunkLoadingStatus "chunk-2d0e6102"
      = Read.own (ChunkStatus.pending 0 0 none) ∧
    (loadModule.e "chunk-2d0e6102" sampleState).1.trace = [] := by
  decide

/-- C10, the code at the failing input: the first `loadModule.e("A")` throws and
leaves `A` pending without a deferred in slot 2; the second call, made while `A`
is pending, fetches nothing and returns `Promise.all([undefined])`, a deferred
that waits on nothing. -/
theorem C10_ensure_pending_at_input :
    (loadModule.e "A" sampleState).2 = Outcome.threw Err.typeError ∧
    isPending (objRead samplePending.chunkLoadingStatus "A") = true ∧
    (loadModule.e "A" samplePending).2 = Outcome.value [none] ∧
    (loadModule.e "A" samplePending).1.trace = [] := by
  decide

/-! ## C12, C16, C17, C18 -/

/-- C12: on a chunk identifier whose status is complete (`0`), `loadModule.e`
returns `Promise.all([])` and leaves the whole state as it is: nothing is
fetched, and the status table, the queue and the module cache are untouched. -/
theorem C12_ensure_complete_is_noop (chunkId : String) (s : State)
    (h : objRead s.chunkLoadingStatus chunkId = Read.own ChunkStatus.complete) :
    loadModule.e chunkId s = (s, Outcome.value []) := by
  simp [loadModule.e, h]

/-- C12 on the chunk `app`, complete from the start. -/
theorem C12_ensure_complete_is_noop_witness :
    objRead sampleState.chunkLoadingStatus "app" = Read.own ChunkStatus.complete ∧
    loadModule.e "app" sampleState = (sampleState, Outcome.value []) :=
  ⟨by decide, C12_ensure_complete_is_noop "app" sampleState (by decide)⟩

/-- C16, as stated, fails: the payload `([], {hasOwnProperty: function (m, e)
{ e.x = 1 }}, [[X, d]])` is delivered to the initial loader. The test of line 48
calls the payload's own `hasOwnProperty` with `e` undefined, which throws a
`TypeError` out of `loadChunk` before line 64: the declared entry is not
appended to the queue and no scan runs. -/
theorem C16_counterexample :
    sampleShadowThrows.chunkDependencies = some [["X", "d"]] ∧
    (initialState []).modulesToLoad = [] ∧
    (loadChunk 3 sampleShadowThrows (initialState [])).2 = Outcome.threw Err.typeError ∧
    (loadChunk 3 sampleShadowThrows (initialState [])).1.modulesToLoad = [] ∧
    (loadChunk 3 sampleShadowThrows (initialState [])).1.modulesToLoad ≠
      (initialState []).modulesToLoad ++ sampleShadowThrows.chunkDependencies.getD [] ∧
    isChunkReady (loadChunk 3 sampleShadowThrows (initialState [])).1 ["X", "d"] = false := by
  decide

/-- C16 (amended): for a payload whose factory mapping has no own property named
`hasOwnProperty`, `loadChunk` is one readiness scan, run on a state whose queue
is the old queue followed by the declared dependencies (by nothing when they
are missing), and it returns what that scan returns. Either no entry of the
longer queue is ready, the queue stays as it is and `undefined` is returned; or
the first ready entry is removed and the result is that of `loadModule` on its
first element. -/
theorem C16_delivery_appends_then_scans (fuel : Nat) (chunkData : Payload) (s : State)
    (hfs : tableGet chunkData.moduleFactories "hasOwnProperty" = none) :
    ∃ mid : State,
      mid.modulesToLoad = s.modulesToLoad ++ chunkData.chunkDependencies.getD [] ∧
      mid.chunkLoadingStatus = (markResolved chunkData.moduleIds s []).1.chunkLoadingStatus ∧
      loadChunk fuel chunkData s = loadNextChunk fuel mid ∧
      (((∀ x ∈ mid.modulesToLoad, isChunkReady mid x = false) ∧
          (loadChunk fuel chunkData s).1.modulesToLoad =
            s.modulesToLoad ++ chunkData.chunkDependencies.getD [] ∧
          (loadChunk fuel chunkData s).2 = Outcome.value Val.undefined) ∨
        (∃ xs e ys, s.modulesToLoad ++ chunkData.chunkDependencies.getD [] = xs ++ e :: ys ∧
          (∀ x ∈ xs, isChunkReady mid x = false) ∧ isChunkReady mid e = true ∧
          (loadChunk fuel chunkData s).1.modulesToLoad = xs ++ ys ∧
          (loadChunk fuel chunkData s).2 =
            (loadModule fuel (entryKey e)
              { mid with modulesToLoad := xs ++ ys, entryModule := e.head? }).2)) := by
  have hq : (pushDependencies chunkData.chunkDependencies
      (callResolves (beforeResolves chunkData s).2 (beforeResolves chunkData s).1)).modulesToLoad
      = s.modulesToLoad ++ chunkData.chunkDependencies.getD [] := by
    unfold beforeResolves
    obtain ⟨g, t, h⟩ := installFactories_frame chunkData.moduleFactories
      (markResolved chunkData.moduleIds s []).1
    obtain ⟨st, hst⟩ := markResolved_frame chunkData.moduleIds s []
    simp only [pushDependencies, callResolves, h]
    rw [hst]
  have hst : (pushDependencies chunkData.chunkDependencies
      (callResolves (beforeResolves chunkData s).2 (beforeResolves chunkData s).1)).chunkLoadingStatus
      = (markResolved chunkData.moduleIds s []).1.chunkLoadingStatus :=
    beforeResolves_status chunkData s
  have hl0 := loadChunk_inherited fuel chunkData s hfs
  refine ⟨_, hq, hst, hl0, ?_⟩
  rcases loadNextChunk_cases fuel (pushDependencies chunkData.chunkDependencies
      (callResolves (beforeResolves chunkData s).2 (beforeResolves chunkData s).1))
    with ⟨hnone, hl⟩ | ⟨xs, e, ys, hxq, hxs, he, hl⟩
  · left
    refine ⟨hnone, ?_, ?_⟩
    · rw [hl0, hl]; exact hq
    · rw [hl0, hl]
  · right
    refine ⟨xs, e, ys, hq ▸ hxq, hxs, he, ?_, ?_⟩
    · rw [hl0, hl]; exact (loadModule_grows fuel _ _).queue
    · rw [hl0, hl]

/-- C16 (amended) on the payload that declares the entries `[X]` and `[Y]`: the
scan runs on the queue `[[X], [Y]]`. -/
theorem C16_delivery_appends_then_scans_witness :
    tableGet sampleTwoEntries.moduleFactories "hasOwnProperty" = none ∧
    ∃ mid : State,
      mid.modulesToLoad =
        (initialState []).modulesToLoad ++ sampleTwoEntries.chunkDependencies.getD [] ∧
      mid.chunkLoadingStatus =
        (markResolved sampleTwoEntries.moduleIds (initialState []) []).1.chunkLoadingStatus ∧
      loadChunk 3 sampleTwoEntries (initialState []) = loadNextChunk 3 mid :=
  ⟨by decide,
    (C16_delivery_appends_then_scans 3 sampleTwoEntries (initialState []) (by decide)).imp
      (fun _ h => ⟨h.1, h.2.1, h.2.2.1⟩)⟩

/-- C17: `getChunkPath` maps the chunk name `chunk-2d0e6102` to
`js/09695d49.js`, and every other chunk name `n` that is not a property name
inherited from `Object.prototype` to `"js/" + n + ".js"`. -/
theorem C17_getChunkPath (n : String) (hn : n ≠ "chunk-2d0e6102")
    (hp : n ∉ objectPrototypeKeys) :
    getChunkPath "chunk-2d0e6102" = "js/09695d49.js" ∧ getChunkPath n = "js/" ++ n ++ ".js" := by
  refine ⟨by decide, ?_⟩
  simp [getChunkPath, objRead, hp, chunkMap, hn]

/-- C17 on the chunk name `app`. -/
theorem C17_getChunkPath_witness :
    "app" ≠ "chunk-2d0e6102" ∧ "app" ∉ objectPrototypeKeys ∧
    getChunkPath "chunk-2d0e6102" = "js/09695d49.js" ∧ getChunkPath "app" = "js/" ++ "app" ++ ".js" :=
  ⟨by decide, by decide, C17_getChunkPath "app" (by decide) (by decide)⟩

/-- C18: when no factory is registered for `id` and the cache has no record for
`id`, `require(id)` throws and leaves in the cache a record for `id` with `l`
false and a fresh, empty exports container; every later `require(id)` returns
that container, changes nothing, and calls no factory. -/
theorem C18_failed_require_leaves_record (fuel fuel2 : Nat) (id : String) (s : State)
    (hfuel : 0 < fuel) (hfuel2 : 0 < fuel2)
    (hreg : tableGet s.global id = none) (hc : cached s id = false) :
    loadModule fuel id s = (newRecord id s, Outcome.threw Err.typeError) ∧
    objRead (newRecord id s).loadedModules id =
      Read.own { i := id, l := false, exports := s.nextObject } ∧
    (newRecord id s).heap s.nextObject = [] ∧
    (newRecord id s).trace = s.trace ∧
    loadModule fuel2 id (newRecord id s) =
      (newRecord id s, Outcome.value (Val.object s.nextObject)) := by
  obtain ⟨n, rfl⟩ : ∃ n, fuel = n + 1 := ⟨fuel - 1, by omega⟩
  obtain ⟨k, rfl⟩ : ∃ k, fuel2 = k + 1 := ⟨fuel2 - 1, by omega⟩
  have habs : objRead s.loadedModules id = Read.absent := by
    unfold cached at hc
    cases h : objRead s.loadedModules id with
    | own r => rw [h] at hc; simp at hc
    | inherited => rw [h] at hc; simp at hc
    | absent => rfl
  have hid := objRead_absent_not_inherited _ _ habs
  have hread : objRead (newRecord id s).loadedModules id =
      Read.own { i := id, l := false, exports := s.nextObject } :=
    objRead_objSet_same _ _ _ hid
  refine ⟨?_, hread, by simp [newRecord], rfl, ?_⟩
  · exact loadModule_unregistered n id s habs hreg
  · exact loadModule_cached k id _ _ (by simp [cacheValue, hread])

/-- C18 at the sample table, where `C` has no factory and no record. -/
theorem C18_failed_require_leaves_record_witness :
    0 < 1 ∧ 0 < 1 ∧ tableGet sampleState.global "C" = none ∧ cached sampleState "C" = false ∧
    loadModule 1 "C" (newRecord "C" sampleState) =
      (newRecord "C" sampleState, Outcome.value (Val.object sampleState.nextObject)) :=
  ⟨by decide, by decide, by decide, by decide,
    (C18_failed_require_leaves_record 1 1 "C" sampleState (by decide) (by decide)
      (by decide) (by decide)).2.2.2.2⟩

/-! ## C19: what a delivery changes in the status table -/

theorem markResolved_raw (ids : List String) :
    ∀ (s : State) (acc : List Nat) (k : String),
      (markResolved ids s acc).1.chunkLoadingStatus k =
        if k ∈ ids ∧ isPending (objRead s.chunkLoadingStatus k) = true
        then some ChunkStatus.complete else s.chunkLoadingStatus k := by
  induction ids with
  | nil => intro s acc k; simp [markResolved]
  | cons a rest ih =>
      intro s acc k
      rw [markResolved]
      split
      · rename_i r j d hread
        rw [ih]
        have ha := objRead_own_not_inherited _ _ _ hread
        by_cases hka : k = a
        · subst hka
          simp [objRead_objSet_same _ _ _ ha, isPending, hread, objSet]
        · simp [objRead_objSet_other _ _ _ _ hka, hka, objSet]
      · rename_i hread
        rw [ih]
        by_cases hka : k = a
        · subst hka
          have hnp : isPending (objRead s.chunkLoadingStatus k) = false := by
            cases h : objRead s.chunkLoadingStatus k with
            | own v =>
                cases v with
                | undefined => rfl
                | complete => rfl
                | pending r j d => exact absurd h (hread r j d)
            | inherited => rfl
            | absent => rfl
          simp [hnp]
        · simp [hka]

theorem filterMap_skip (f g : String → Option Nat) (a : String) (l : List String)
    (hfg : ∀ k, k ≠ a → f k = g k) (hfa : f a = none) :
    l.filterMap f = (l.filter (fun x => decide (x ≠ a))).filterMap g := by
  induction l with
  | nil => rfl
  | cons x rest ih =>
      by_cases hx : x = a
      · subst hx
        simp [List.filterMap_cons, hfa, ih]
      · simp [List.filterMap_cons, hx, hfg x hx, ih]

theorem resolveSlot_of_pending (s : State) (a : String) (r j : Nat) (d : Option Nat)
    (h : objRead s.chunkLoadingStatus a = Read.own (ChunkStatus.pending r j d)) :
    resolveSlot s a = some r := by
  simp [resolveSlot, h]

theorem resolveSlot_of_not_pending (s : State) (a : String)
    (h : ∀ r j d, objRead s.chunkLoadingStatus a ≠ Read.own (ChunkStatus.pending r j d)) :
    resolveSlot s a = none := by
  unfold resolveSlot
  split
  · rename_i r j d hread
    exact absurd hread (h r j d)
  · rfl

/-- Lines 35-44 collect the resolve continuation of every listed pending
identifier, once, in the order of the list. -/
theorem markResolved_tokens (ids : List String) :
    ∀ (s : State) (acc : List Nat),
      (markResolved ids s acc).2 = acc ++ pendingResolves s ids := by
  induction ids with
  | nil => intro s acc; simp [markResolved, pendingResolves, firstOccurrences]
  | cons a rest ih =>
      intro s acc
      rw [markResolved]
      split
      · rename_i r j d hread
        rw [ih]
        have ha := objRead_own_not_inherited _ _ _ hread
        have hskip := filterMap_skip
          (resolveSlot { s with chunkLoadingStatus := objSet s.chunkLoadingStatus a ChunkStatus.complete })
          (resolveSlot s) a (firstOccurrences rest)
          (by
            intro k hk
            simp [resolveSlot, objRead_objSet_other _ _ _ _ hk])
          (by simp [resolveSlot, objRead_objSet_same _ _ _ ha])
        simp only [pendingResolves, firstOccurrences, List.filterMap_cons,
          resolveSlot_of_pending s a r j d hread, hskip]
        simp
      · rename_i hread
        rw [ih]
        have hnone := resolveSlot_of_not_pending s a hread
        have hskip := filterMap_skip (resolveSlot s) (resolveSlot s) a (firstOccurrences rest)
          (fun _ _ => rfl) hnone
        simp only [pendingResolves, firstOccurrences, List.filterMap_cons, hnone]
        rw [← hskip]

/-- The entries of the status table when `loadChunk` ends: those made by lines
35-44, but for unknown entries that a factory run by the scan made pending. -/
theorem loadChunk_status_raw (fuel : Nat) (chunkData : Payload) (s : State) (k : String) :
    (loadChunk fuel chunkData s).1.chunkLoadingStatus k =
      (markResolved chunkData.moduleIds s []).1.chunkLoadingStatus k ∨
    (statusUnknown (markResolved chunkData.moduleIds s []).1 k ∧
      ∃ p, (loadChunk fuel chunkData s).1.chunkLoadingStatus k =
        some (ChunkStatus.pending p p none)) := by
  obtain ⟨g, t, h⟩ := installFactories_frame chunkData.moduleFactories
    (markResolved chunkData.moduleIds s []).1
  unfold loadChunk
  simp only []
  rcases hi : installFactories chunkData.moduleFactories
    (markResolved chunkData.moduleIds s []).1 with ⟨s2, o⟩
  rw [hi] at h
  simp only at h
  cases o with
  | some e =>
      left
      simp only [h]
  | none =>
      simp only []
      rcases (loadNextChunk_frame fuel (pushDependencies chunkData.chunkDependencies
        (callResolves (markResolved chunkData.moduleIds s []).2 s2))).1 k with hr | ⟨hu, hp⟩
      · left
        rw [hr, h]
        rfl
      · right
        refine ⟨?_, hp⟩
        rw [h] at hu
        exact hu

/-- C19, as stated, fails: the payload `([], {M: function (m, e, r) { r.e("Z")
}}, [[M]])` lists no identifier. Delivered to the initial loader, its entry `[M]`
is dispatched by the scan of line 67, the factory of `M` calls `loadModule.e` on
`Z`, and the status of `Z`, unknown before the delivery, is pending after it. -/
theorem C19_counterexample :
    sampleEnsuring.moduleIds = [] ∧
    objRead (initialState []).chunkLoadingStatus "Z" = Read.absent ∧
    objRead (loadChunk 3 sampleEnsuring (initialState [])).1.chunkLoadingStatus "Z"
      = Read.own (ChunkStatus.pending 0 0 none) ∧
    (loadChunk 3 sampleEnsuring (initialState [])).1.chunkLoadingStatus "Z"
      ≠ (initialState []).chunkLoadingStatus "Z" ∧
    (loadChunk 3 sampleEnsuring (initialState [])).1.trace
      = [Event.install "M", Event.invoke "M" false 0] := by
  decide

/-- C19 (amended): `loadChunk` turns into complete (`0`) the status of every
identifier that is listed in `moduleIds` and was pending. When the scan of line
67 starts, the status table entry of every other identifier (not listed, or
listed but not pending) is as it was before the delivery; when `loadChunk`
ends, such an entry is as it was, or it was unknown and is now the pair made on
line 161, because a factory run by the scan called `loadModule.e` on it. So an
entry that is pending afterwards was the same pending entry before, or was
unknown before. For a payload whose factory mapping has no own property named
`hasOwnProperty`, the resolve continuations that `loadChunk` calls are those of
the listed pending identifiers, once each, in the order of `moduleIds`; they
come after the installations, and nothing after them is a resolve call. -/
theorem C19_delivery_touches_listed_pending (fuel : Nat) (chunkData : Payload) (s : State) :
    (∀ k, k ∈ chunkData.moduleIds → isPending (objRead s.chunkLoadingStatus k) = true →
      objRead (loadChunk fuel chunkData s).1.chunkLoadingStatus k = Read.own ChunkStatus.complete) ∧
    (∀ k, ¬ (k ∈ chunkData.moduleIds ∧ isPending (objRead s.chunkLoadingStatus k) = true) →
      (beforeResolves chunkData s).1.chunkLoadingStatus k = s.chunkLoadingStatus k) ∧
    (∀ k, ¬ (k ∈ chunkData.moduleIds ∧ isPending (objRead s.chunkLoadingStatus k) = true) →
      (loadChunk fuel chunkData s).1.chunkLoadingStatus k = s.chunkLoadingStatus k ∨
      (statusUnknown s k ∧
        ∃ p, (loadChunk fuel chunkData s).1.chunkLoadingStatus k =
          some (ChunkStatus.pending p p none))) ∧
    (∀ k, isPending (objRead (loadChunk fuel chunkData s).1.chunkLoadingStatus k) = true →
      (loadChunk fuel chunkData s).1.chunkLoadingStatus k = s.chunkLoadingStatus k ∨
      statusUnknown s k) ∧
    (tableGet chunkData.moduleFactories "hasOwnProperty" = none →
      ∃ rest, (loadChunk fuel chunkData s).1.trace =
          s.trace ++ (chunkData.moduleFactories.map Prod.fst).map Event.install
            ++ (pendingResolves s chunkData.moduleIds).map Event.resolve ++ rest ∧
        ∀ e ∈ rest, ∀ r, e ≠ Event.resolve r) := by
  have hother : ∀ k,
      ¬ (k ∈ chunkData.moduleIds ∧ isPending (objRead s.chunkLoadingStatus k) = true) →
      (loadChunk fuel chunkData s).1.chunkLoadingStatus k = s.chunkLoadingStatus k ∨
      (statusUnknown s k ∧
        ∃ p, (loadChunk fuel chunkData s).1.chunkLoadingStatus k =
          some (ChunkStatus.pending p p none)) := by
    intro k hk
    have hraw : (markResolved chunkData.moduleIds s []).1.chunkLoadingStatus k =
        s.chunkLoadingStatus k := by
      rw [markResolved_raw]
      simp only [hk, if_false]
    rcases loadChunk_status_raw fuel chunkData s k with h | ⟨hu, hp⟩
    · left
      rw [h, hraw]
    · right
      refine ⟨?_, hp⟩
      unfold statusUnknown at hu ⊢
      rw [objRead_congr _ _ k hraw] at hu
      exact hu
  have hlisted : ∀ k, k ∈ chunkData.moduleIds →
      isPending (objRead s.chunkLoadingStatus k) = true →
      objRead (loadChunk fuel chunkData s).1.chunkLoadingStatus k =
        Read.own ChunkStatus.complete := by
    intro k hk hp
    have hm : objRead (markResolved chunkData.moduleIds s []).1.chunkLoadingStatus k =
        Read.own ChunkStatus.complete := by
      rw [markResolved_read]
      simp [hk, hp]
    rcases loadChunk_status fuel chunkData s k with h | ⟨hu, _⟩
    · rw [h, hm]
    · rcases hu with hu | hu
      · rw [hm] at hu; exact absurd hu (by simp)
      · rw [hm] at hu; exact absurd hu (by simp)
  refine ⟨hlisted, ?_, hother, ?_, ?_⟩
  · intro k hk
    rw [beforeResolves_status, markResolved_raw]
    simp only [hk, if_false]
  · intro k hp
    by_cases hk : k ∈ chunkData.moduleIds ∧ isPending (objRead s.chunkLoadingStatus k) = true
    · rw [hlisted k hk.1 hk.2] at hp
      exact absurd hp (by decide)
    · rcases hother k hk with h | ⟨hu, _⟩
      · exact Or.inl h
      · exact Or.inr hu
  · intro hfs
    obtain ⟨rest, htr, hrest⟩ := loadChunk_trace fuel chunkData s hfs
    refine ⟨rest, ?_, fun e he => (hrest e he).2⟩
    rw [htr]
    have htok : (beforeResolves chunkData s).2 = pendingResolves s chunkData.moduleIds := by
      show (markResolved chunkData.moduleIds s []).2 = _
      rw [markResolved_tokens]
      simp
    rw [htok]

/-- C19 (amended) on the payload `([A, B], {A: fnA, B: fnB}, [])` delivered while
`A` is pending: `A` becomes complete, the entry of `B` is untouched, and the one
continuation called is that of `A`. -/
theorem C19_delivery_touches_listed_pending_witness :
    "A" ∈ samplePayload.moduleIds ∧
    isPending (objRead samplePending.chunkLoadingStatus "A") = true ∧
    tableGet samplePayload.moduleFactories "hasOwnProperty" = none ∧
    pendingResolves samplePending samplePayload.moduleIds = [0] ∧
    objRead (loadChunk 3 samplePayload samplePending).1.chunkLoadingStatus "A"
      = Read.own ChunkStatus.complete ∧
    (∃ rest, (loadChunk 3 samplePayload samplePending).1.trace =
        samplePending.trace ++ (samplePayload.moduleFactories.map Prod.fst).map Event.install
          ++ (pendingResolves samplePending samplePayload.moduleIds).map Event.resolve ++ rest ∧
      ∀ e ∈ rest, ∀ r, e ≠ Event.resolve r) :=
  ⟨by decide, by decide, by decide, by decide,
    (C19_delivery_touches_listed_pending 3 samplePayload samplePending).1 "A"
      (by decide) (by decide),
    (C19_delivery_touches_listed_pending 3 samplePayload samplePending).2.2.2.2 (by decide)⟩

/-! ## C13, C15: the record of a module while and after its factory runs -/

theorem KeepsRecords.same (s : State) : KeepsRecords s s :=
  fun _ _ => rfl

theorem KeepsRecords.andThen {s s1 s2 : State} (h1 : KeepsRecords s s1) (h2 : KeepsRecords s1 s2) :
    KeepsRecords s s2 := by
  intro k hk
  have hk1 : cached s1 k = true := by rw [cached_of_read_eq s s1 k (h1 k hk)]; exact hk
  rw [h2 k hk1, h1 k hk]

theorem KeepsRecords.of_cache_eq {s s1 : State} (h : s1.loadedModules = s.loadedModules) :
    KeepsRecords s s1 := by
  intro k _
  rw [h]

theorem KeepsRecords.objSet_absent (s : State) (m : String) (r : ModuleRecord)
    (hm : cached s m = false) :
    KeepsRecords s { s with loadedModules := objSet s.loadedModules m r } := by
  intro k hk
  have hkm : k ≠ m := by
    intro h
    rw [h, hm] at hk
    exact absurd hk (by decide)
  exact objRead_objSet_other _ _ _ _ hkm

/-- A call of `loadModule.e` leaves the module cache alone. -/
theorem ensure_cache (chunkId : String) (s : State) :
    (loadModule.e chunkId s).1.loadedModules = s.loadedModules := by
  by_cases h : statusUnknown s chunkId
  · rw [ensure_unknown_throws chunkId s h]
  · rw [ensure_known_state chunkId s h]

theorem KeepsOthers.still (m : String) (s : State) : KeepsOthers m s s :=
  ⟨fun _ _ _ => rfl, fun r hr => ⟨r.exports, hr⟩⟩

theorem KeepsOthers.of_keeps {m : String} {s s1 : State} (h : KeepsRecords s s1) :
    KeepsOthers m s s1 := by
  refine ⟨fun k _ hk => h k hk, ?_⟩
  intro r hr
  refine ⟨r.exports, ?_⟩
  rw [h m (by simp [cached, hr])]
  exact hr

theorem KeepsOthers.next {m : String} {s s1 s2 : State} (h1 : KeepsOthers m s s1)
    (h2 : KeepsOthers m s1 s2) : KeepsOthers m s s2 := by
  refine ⟨?_, ?_⟩
  · intro k hkm hk
    have hk1 : cached s1 k = true := by
      rw [cached_of_read_eq s s1 k (h1.1 k hkm hk)]; exact hk
    rw [h2.1 k hkm hk1, h1.1 k hkm hk]
  · intro r hr
    obtain ⟨x, hx⟩ := h1.2 r hr
    obtain ⟨y, hy⟩ := h2.2 _ hx
    exact ⟨y, hy⟩

/-- The assignment `module.exports = {...}` made by the factory of `m` changes
the container named by the record of `m` and nothing else of the cache. -/
theorem KeepsOthers.assign (m : String) (props : List (String × Nat)) (s : State) :
    KeepsOthers m s (replaceExports m props s) := by
  cases hraw : s.loadedModules m with
  | none =>
      have : (replaceExports m props s).loadedModules = s.loadedModules := by
        simp [replaceExports, hraw]
      exact KeepsOthers.of_keeps (KeepsRecords.of_cache_eq this)
  | some r0 =>
      have hlm : (replaceExports m props s).loadedModules =
          objSet s.loadedModules m { r0 with exports := s.nextObject } := by
        simp [replaceExports, hraw]
      refine ⟨?_, ?_⟩
      · intro k hkm _
        rw [hlm]
        exact objRead_objSet_other _ _ _ _ hkm
      · intro r hr
        have hm := objRead_own_not_inherited _ _ _ hr
        have hr0 := objRead_own_raw _ _ _ hr
        rw [hraw] at hr0
        simp only [Option.some.injEq] at hr0
        subst hr0
        exact ⟨s.nextObject, by rw [hlm]; exact objRead_objSet_same _ _ _ hm⟩

/-- While the factory of `m` runs, the records cached at its start stay as they
are, but for the container named by the record of `m` itself. -/
theorem runFactory_keepsOthers (req : String → State → State × Outcome Val)
    (hreq : ∀ id s, KeepsRecords s (req id s).1) (m : String) (x : Nat) (acts : List Action) :
    ∀ s, KeepsOthers m s (runFactory req m x acts s).1 := by
  induction acts with
  | nil => intro s; exact KeepsOthers.still m s
  | cons a rest ih =>
      intro s
      cases a with
      | setExport key value =>
          simp only [runFactory]
          have h : KeepsRecords s { s with heap := heapSet s.heap x key value } :=
            KeepsRecords.of_cache_eq rfl
          exact (KeepsOthers.of_keeps h).next (ih _)
      | assignExports props =>
          simp only [runFactory]
          exact (KeepsOthers.assign m props s).next (ih _)
      | require id =>
          simp only [runFactory]
          have h1 := hreq id s
          rcases hr : req id s with ⟨s1, o⟩
          rw [hr] at h1
          cases o with
          | value v =>
              have h : KeepsRecords s1 (s1.log (Event.required id v (propsOf s1 v))) :=
                KeepsRecords.of_cache_eq rfl
              exact (KeepsOthers.of_keeps (h1.andThen h)).next (ih _)
          | threw e => exact KeepsOthers.of_keeps h1
          | outOfFuel => exact KeepsOthers.of_keeps h1
      | ensure chunkId =>
          simp only [runFactory]
          have h1 : KeepsRecords s (loadModule.e chunkId s).1 :=
            KeepsRecords.of_cache_eq (ensure_cache chunkId s)
          rcases hr : loadModule.e chunkId s with ⟨s1, o⟩
          rw [hr] at h1
          cases o with
          | value v => exact (KeepsOthers.of_keeps h1).next (ih _)
          | threw e => exact KeepsOthers.of_keeps h1
          | outOfFuel => exact KeepsOthers.of_keeps h1
      | raise tag =>
          simp only [runFactory]
          exact KeepsOthers.still m s

/-- A factory that does not assign `module.exports` leaves every record cached
at its start as it is, its own included. -/
theorem runFactory_keeps (req : String → State → State × Outcome Val)
    (hreq : ∀ id s, KeepsRecords s (req id s).1) (m : String) (x : Nat) (acts : List Action)
    (hacts : acts.any isAssign = false) :
    ∀ s, KeepsRecords s (runFactory req m x acts s).1 := by
  induction acts with
  | nil => intro s; exact KeepsRecords.same s
  | cons a rest ih =>
      intro s
      have hrest : rest.any isAssign = false := by
        simp only [List.any_cons, Bool.or_eq_false_iff] at hacts
        exact hacts.2
      cases a with
      | setExport key value =>
          simp only [runFactory]
          have h : KeepsRecords s { s with heap := heapSet s.heap x key value } :=
            KeepsRecords.of_cache_eq rfl
          exact h.andThen (ih hrest _)
      | assignExports props =>
          simp [isAssign] at hacts
      | require id =>
          simp only [runFactory]
          have h1 := hreq id s
          rcases hr : req id s with ⟨s1, o⟩
          rw [hr] at h1
          cases o with
          | value v =>
              have h : KeepsRecords s1 (s1.log (Event.required id v (propsOf s1 v))) :=
                KeepsRecords.of_cache_eq rfl
              exact h1.andThen (h.andThen (ih hrest _))
          | threw e => exact h1
          | outOfFuel => exact h1
      | ensure chunkId =>
          simp only [runFactory]
          have h1 : KeepsRecords s (loadModule.e chunkId s).1 :=
            KeepsRecords.of_cache_eq (ensure_cache chunkId s)
          rcases hr : loadModule.e chunkId s with ⟨s1, o⟩
          rw [hr] at h1
          cases o with
          | value v => exact h1.andThen (ih hrest _)
          | threw e => exact h1
          | outOfFuel => exact h1
      | raise tag =>
          simp only [runFactory]
          exact KeepsRecords.same s

/-- A call of `loadModule` does not touch the records that were cached when it
started. -/
theorem loadModule_keeps : ∀ (fuel : Nat) (moduleId : String) (s : State),
    KeepsRecords s (loadModule fuel moduleId s).1 := by
  intro fuel
  induction fuel with
  | zero => intro m s; exact KeepsRecords.same s
  | succ n ih =>
      intro m s
      cases hcm : cached s m with
      | true =>
          rw [loadModule_cached_state (n + 1) m s hcm]
          exact KeepsRecords.same s
      | false =>
          have hc := cached_false_absent s m hcm
          have h0 : KeepsRecords s (newRecord m s) := KeepsRecords.objSet_absent s m _ hcm
          cases hf : tableGet s.global m with
          | none =>
              rw [loadModule_unregistered n m s hc hf]
              exact h0
          | some f =>
              obtain ⟨s2, o, hr, _, hres⟩ := loadModule_absent_registered n m s f hc hf
              have h2 := runFactory_keepsOthers (loadModule n) ih m s.nextObject f
                ((newRecord m s).log (Event.invoke m false s.nextObject))
              have hr1 : runFactory (loadModule n) m s.nextObject f
                  ((newRecord m s).log (Event.invoke m false s.nextObject)) = (s2, o) := hr
              rw [hr1] at h2
              have h3 : KeepsRecords s s2 := by
                intro k hk
                have hkm : k ≠ m := by
                  intro h
                  rw [h, hcm] at hk
                  exact absurd hk (by decide)
                have hk1 : cached ((newRecord m s).log (Event.invoke m false s.nextObject)) k
                    = true := by
                  have := cached_of_read_eq s (newRecord m s) k (h0 k hk)
                  rw [hk] at this
                  exact this
                rw [h2.1 k hkm hk1]
                exact h0 k hk
              rcases hres with ⟨v, _, hl⟩ | ⟨_, hl⟩
              · rw [hl]
                intro k hk
                have hkm : k ≠ m := by
                  intro h
                  rw [h, hcm] at hk
                  exact absurd hk (by decide)
                show objRead (objSet s2.loadedModules m _) k = _
                rw [objRead_objSet_other _ _ _ _ hkm]
                exact h3 k hk
              · rw [hl]
                exact h3

/-- The record of a registered, uncached module from the call of its factory to
the end of the call of `loadModule`: made with `l` false and an empty
container, with `l` still false when the factory ends, and `l` true only if the
factory returned. The container it names is the one of line 134 unless the
factory assigned `module.exports`. -/
theorem loadModule_record (n : Nat) (m : String) (s : State) (f : Factory)
    (hcm : cached s m = false) (hf : tableGet s.global m = some f) :
    ∃ s2 o x, factoryRun n m s f = (s2, o) ∧
      (f.any isAssign = false → x = s.nextObject) ∧
      objRead s2.loadedModules m = Read.own { i := m, l := false, exports := x } ∧
      ((∃ v, o = Outcome.value v ∧ loadModule (n + 1) m s =
          (markLoaded m { i := m, l := false, exports := x } s2, Outcome.value (Val.object x)) ∧
          objRead (markLoaded m { i := m, l := false, exports := x } s2).loadedModules m =
            Read.own { i := m, l := true, exports := x }) ∨
        ((∀ v, o ≠ Outcome.value v) ∧ loadModule (n + 1) m s = (s2, o))) := by
  have hc := cached_false_absent s m hcm
  have hm := objRead_absent_not_inherited _ _ hc
  obtain ⟨s2, o, hr, _, hres⟩ := loadModule_absent_registered n m s f hc hf
  have hr1 : runFactory (loadModule n) m s.nextObject f
      ((newRecord m s).log (Event.invoke m false s.nextObject)) = (s2, o) := hr
  have hstart : objRead ((newRecord m s).log (Event.invoke m false s.nextObject)).loadedModules m
      = Read.own { i := m, l := false, exports := s.nextObject } :=
    objRead_objSet_same _ _ _ hm
  have hothers := runFactory_keepsOthers (loadModule n) (loadModule_keeps n) m s.nextObject f
    ((newRecord m s).log (Event.invoke m false s.nextObject))
  rw [hr1] at hothers
  obtain ⟨x, hx⟩ := hothers.2 _ hstart
  have hx1 : objRead s2.loadedModules m = Read.own { i := m, l := false, exports := x } := hx
  have hmod : moduleOf m s.nextObject s2 = { i := m, l := false, exports := x } :=
    moduleOf_of_read m s.nextObject s2 _ hx1
  refine ⟨s2, o, x, hr, ?_, hx1, ?_⟩
  · intro hacts
    have hkeep := runFactory_keeps (loadModule n) (loadModule_keeps n) m s.nextObject f hacts
      ((newRecord m s).log (Event.invoke m false s.nextObject))
    rw [hr1] at hkeep
    have h1 := hkeep m (cached_newRecord s m hm)
    rw [hstart, hx1] at h1
    simp only [Read.own.injEq, ModuleRecord.mk.injEq, true_and] at h1
    exact h1
  · rcases hres with ⟨v, hv, hl⟩ | ⟨hne, hl⟩
    · left
      rw [hmod] at hl
      exact ⟨v, hv, hl, objRead_objSet_same _ _ _ hm⟩
    · right
      exact ⟨hne, hl⟩

/-- C13, as stated, fails: `require("A")` on the sample table calls the factory
of `A` while the record of `A` has `l` false; the first call that leaves the
loader is that factory call, and the flag it finds is `false`. -/
theorem C13_counterexample :
    tableGet sampleState.global "A" = some fnA ∧ cached sampleState "A" = false ∧
    flagOf (newRecord "A" sampleState) "A" = false ∧
    (loadModule 3 "A" sampleState).1.trace.head? = some (Event.invoke "A" false 0) ∧
    flagOf (factoryRun 2 "A" sampleState fnA).1 "A" = false := by
  decide

/-- C13 (amended): for a module `m` with a registered factory and no cache
record, `require(m)` creates the record with an empty exports container and
with `l` false, stores it in the cache, and then calls the factory; the record
still has `l` false when the factory ends, and `l` becomes true after the
factory has returned, not before and not when it throws. The container `x` that
the record names at the end, and that `require(m)` returns, is the one made
with the record unless the factory assigned `module.exports`. -/
theorem C13_flag_set_after_factory (n : Nat) (m : String) (s : State) (f : Factory)
    (hcm : cached s m = false) (hf : tableGet s.global m = some f) :
    (newRecord m s).heap s.nextObject = [] ∧
    objRead (newRecord m s).loadedModules m =
      Read.own { i := m, l := false, exports := s.nextObject } ∧
    (∃ t, (loadModule (n + 1) m s).1.trace = s.trace ++ Event.invoke m false s.nextObject :: t) ∧
    ∃ x, (f.any isAssign = false → x = s.nextObject) ∧
      objRead (factoryRun n m s f).1.loadedModules m =
        Read.own { i := m, l := false, exports := x } ∧
      ((∃ v, (factoryRun n m s f).2 = Outcome.value v ∧
          loadModule (n + 1) m s =
            (markLoaded m { i := m, l := false, exports := x } (factoryRun n m s f).1,
              Outcome.value (Val.object x)) ∧
          objRead (loadModule (n + 1) m s).1.loadedModules m =
            Read.own { i := m, l := true, exports := x }) ∨
        ((∀ v, (factoryRun n m s f).2 ≠ Outcome.value v) ∧
          loadModule (n + 1) m s = factoryRun n m s f)) := by
  have hm := objRead_absent_not_inherited _ _ (cached_false_absent s m hcm)
  obtain ⟨s2, o, x, hrun, hx, hs2, hres⟩ := loadModule_record n m s f hcm hf
  have hg := runFactory_grows (loadModule n) (loadModule_grows n) m s.nextObject f
    ((newRecord m s).log (Event.invoke m false s.nextObject))
  have hr1 : runFactory (loadModule n) m s.nextObject f
      ((newRecord m s).log (Event.invoke m false s.nextObject)) = (s2, o) := hrun
  rw [hr1] at hg
  obtain ⟨t, ht, _⟩ := hg.events
  have htrace : s2.trace = s.trace ++ Event.invoke m false s.nextObject :: t := by
    rw [ht]
    show (s.trace ++ [Event.invoke m false s.nextObject]) ++ t = _
    simp
  rw [hrun]
  refine ⟨by simp [newRecord], objRead_objSet_same _ _ _ hm, ?_, x, hx, hs2, ?_⟩
  · rcases hres with ⟨v, _, hl, _⟩ | ⟨_, hl⟩
    · rw [hl]; exact ⟨t, htrace⟩
    · rw [hl]; exact ⟨t, htrace⟩
  · rcases hres with ⟨v, hv, hl, hread⟩ | ⟨hne, hl⟩
    · left
      refine ⟨v, hv, hl, ?_⟩
      rw [hl]
      exact hread
    · right
      exact ⟨hne, hl⟩

/-- C13 (amended) at the sample table: the record of `A` has `l` false when the
factory of `A` ends, and names the container made with it. -/
theorem C13_flag_set_after_factory_witness :
    cached sampleState "A" = false ∧ tableGet sampleState.global "A" = some fnA ∧
    fnA.any isAssign = false ∧
    objRead (factoryRun 2 "A" sampleState fnA).1.loadedModules "A" =
      Read.own { i := "A", l := false, exports := sampleState.nextObject } :=
  ⟨by decide, by decide, by decide,
    match (C13_flag_set_after_factory 2 "A" sampleState fnA (by decide) (by decide)).2.2.2 with
    | ⟨_, hx, hread, _⟩ => (hx (by decide)) ▸ hread⟩

/-- C15, as stated, fails: after `require("T")` has propagated the error thrown
by the factory of `T`, the record of `T` is in the cache but its flag `l` is
false: the module is not marked instantiated. -/
theorem C15_counterexample :
    (loadModule 2 "T" sampleThrowing).2 = Outcome.threw (Err.thrown 7) ∧
    cached (loadModule 2 "T" sampleThrowing).1 "T" = true ∧
    flagOf (loadModule 2 "T" sampleThrowing).1 "T" = false := by
  decide

/-- C15 (amended): when the factory of a registered, uncached module `m` throws,
`require(m)` ends with that same error; the record of `m` stays in the cache
with `l` false; the factory was called once; and every later `require(m)`
returns the container `x` of that record without changing anything, so without
calling the factory again. That container is the one made with the record
unless the factory assigned `module.exports` before it threw. -/
theorem C15_throwing_factory (n k : Nat) (m : String) (s : State) (f : Factory) (e : Err)
    (hcm : cached s m = false) (hf : tableGet s.global m = some f)
    (hthrow : (factoryRun n m s f).2 = Outcome.threw e) :
    loadModule (n + 1) m s = ((factoryRun n m s f).1, Outcome.threw e) ∧
    invocations m (traceSince s (loadModule (n + 1) m s).1) = 1 ∧
    ∃ x, (f.any isAssign = false → x = s.nextObject) ∧
      objRead (loadModule (n + 1) m s).1.loadedModules m =
        Read.own { i := m, l := false, exports := x } ∧
      loadModule (k + 1) m (loadModule (n + 1) m s).1 =
        ((loadModule (n + 1) m s).1, Outcome.value (Val.object x)) := by
  obtain ⟨s2, o, x, hrun, hx, hs2, hres⟩ := loadModule_record n m s f hcm hf
  rw [hrun] at hthrow ⊢
  have ho : o = Outcome.threw e := hthrow
  have hl : loadModule (n + 1) m s = (s2, Outcome.threw e) := by
    rcases hres with ⟨v, hv, _, _⟩ | ⟨_, hl⟩
    · rw [hv] at ho; exact absurd ho (by simp)
    · rw [hl, ho]
  have hcount := (loadModule_first_call n m s f (cached_false_absent s m hcm) hf).2.1
  rw [hl] at hcount ⊢
  refine ⟨rfl, hcount, x, hx, hs2, ?_⟩
  exact loadModule_cached k m s2 _ (by simp [cacheValue, hs2])

/-- C15 (amended) at the table whose factory of `T` throws. -/
theorem C15_throwing_factory_witness :
    cached sampleThrowing "T" = false ∧
    (factoryRun 1 "T" sampleThrowing [Action.setExport "x" 1, Action.raise 7]).2
      = Outcome.threw (Err.thrown 7) ∧
    (loadModule 1 "T" (loadModule 2 "T" sampleThrowing).1).2 =
      Outcome.value (Val.object sampleThrowing.nextObject) ∧
    invocations "T" (traceSince sampleThrowing (loadModule 2 "T" sampleThrowing).1) = 1 :=
  ⟨by decide, by decide, by decide,
    (C15_throwing_factory 1 0 "T" sampleThrowing
      [Action.setExport "x" 1, Action.raise 7] (Err.thrown 7) (by decide) (by decide)
      (by decide)).2.1⟩

/-! ## C14: each factory is called at most once -/

theorem Calls.of_same {s s1 : State} (hg : Grows s s1) (ht : s1.trace = s.trace)
    (hc : ∀ k, cached s1 k = cached s k) : Calls s s1 := by
  refine ⟨hg, ?_⟩
  intro k
  have : traceSince s s1 = [] := traceSince_append s s1 [] (by simp [ht])
  rw [this, hc k]
  cases cached s k <;> simp [invocations]

theorem Calls.idle (s : State) : Calls s s :=
  Calls.of_same (Grows.refl s) rfl (fun _ => rfl)

/-- The events logged over two steps are those of the first, then those of the
second. -/
theorem traceSince_chain {s s1 s2 : State} (h1 : Grows s s1) (h2 : Grows s1 s2) :
    traceSince s s2 = traceSince s s1 ++ traceSince s1 s2 := by
  obtain ⟨ht1, _⟩ := h1.trace_eq
  obtain ⟨ht2, _⟩ := h2.trace_eq
  exact traceSince_append s s2 _ (by rw [ht2, ht1, List.append_assoc])

theorem Calls.step {s s1 s2 : State} (h1 : Calls s s1) (h2 : Calls s1 s2) : Calls s s2 := by
  refine ⟨h1.grows.trans h2.grows, ?_⟩
  intro k
  have hreg : registered s1 k = registered s k := by
    simp [registered, h1.grows.table]
  have h01 := h1.grows.cache k
  have h12 := h2.grows.cache k
  have c1 := h1.counts k
  have c2 := h2.counts k
  rw [hreg] at c2
  rw [traceSince_chain h1.grows h2.grows]
  unfold invocations at c1 c2 ⊢
  rw [List.countP_append, c1, c2]
  cases hc0 : cached s k <;> cases hc1 : cached s1 k <;> cases hc2 : cached s2 k <;>
    cases hr : registered s k <;> simp_all

theorem Calls.write (s : State) (ref : Nat) (key : String) (value : Nat) :
    Calls s { s with heap := heapSet s.heap ref key value } :=
  Calls.of_same (Grows.heapSet s ref key value) rfl (fun _ => rfl)

theorem Calls.reassign (m : String) (props : List (String × Nat)) (s : State) :
    Calls s (replaceExports m props s) :=
  Calls.of_same (Grows.replaceExports m props s) rfl (cached_replaceExports m props s)

theorem Calls.ensure (chunkId : String) (s : State) : Calls s (loadModule.e chunkId s).1 :=
  Calls.of_same (ensure_grows chunkId s) (ensure_never_fetches chunkId s)
    (fun k => cached_of_read_eq _ _ k (by rw [ensure_cache]))

theorem Calls.log_required (s : State) (id : String) (v : Val) (p : List (String × Nat)) :
    Calls s (s.log (Event.required id v p)) := by
  refine ⟨(Grows.refl s).log _ (by simp [NestedEvent]), ?_⟩
  intro k
  have : traceSince s (s.log (Event.required id v p)) = [Event.required id v p] :=
    traceSince_append s _ _ rfl
  rw [this]
  have hc : cached (s.log (Event.required id v p)) k = cached s k := rfl
  rw [hc]
  cases cached s k <;> simp [invocations]

theorem cached_newRecord_other (s : State) (m k : String) (hkm : k ≠ m) :
    cached (newRecord m s) k = cached s k := by
  unfold cached
  show (match objRead (objSet s.loadedModules m _) k with
    | Read.absent => false
    | _ => true) = _
  rw [objRead_objSet_other _ _ _ _ hkm]

theorem cached_markLoaded (s : State) (m : String) (r : ModuleRecord) (k : String)
    (hm : cached s m = true) : cached (markLoaded m r s) k = cached s k := by
  by_cases hkm : k = m
  · subst hkm
    rw [hm]
    exact cached_objSet s k _ k hm
  · unfold cached
    show (match objRead (objSet s.loadedModules m _) k with
      | Read.absent => false
      | _ => true) = _
    rw [objRead_objSet_other _ _ _ _ hkm]

theorem Calls.newRecord_invoke (s : State) (m : String) (f : Factory)
    (hc : objRead s.loadedModules m = Read.absent) (hf : tableGet s.global m = some f) :
    Calls s ((newRecord m s).log (Event.invoke m false s.nextObject)) := by
  have hm := objRead_absent_not_inherited _ _ hc
  have hunc : cached s m = false := by simp [cached, hc]
  refine ⟨(Grows.newRecord s m).log _ (by simpa [NestedEvent] using hunc), ?_⟩
  intro k
  have : traceSince s ((newRecord m s).log (Event.invoke m false s.nextObject))
      = [Event.invoke m false s.nextObject] := traceSince_append s _ _ rfl
  rw [this]
  have hck : cached ((newRecord m s).log (Event.invoke m false s.nextObject)) k
      = cached (newRecord m s) k := rfl
  rw [hck]
  by_cases hkm : k = m
  · subst hkm
    simp [invocations, hunc, cached_newRecord s k hm, registered, hf]
  · rw [cached_newRecord_other s m k hkm]
    have hmk : m ≠ k := fun h => hkm h.symm
    cases cached s k <;> simp [invocations, hmk]

theorem Calls.newRecord_unregistered (s : State) (m : String)
    (hf : tableGet s.global m = none) : Calls s (newRecord m s) := by
  refine ⟨Grows.newRecord s m, ?_⟩
  intro k
  have : traceSince s (newRecord m s) = [] := traceSince_append s _ [] (by simp [newRecord])
  rw [this]
  by_cases hkm : k = m
  · subst hkm
    simp [invocations, registered, hf]
  · rw [cached_newRecord_other s m k hkm]
    cases cached s k <;> simp [invocations]

theorem runFactory_calls (req : String → State → State × Outcome Val)
    (hreq : ∀ id s, Calls s (req id s).1) (m : String) (x : Nat) (acts : List Action) :
    ∀ s, Calls s (runFactory req m x acts s).1 := by
  induction acts with
  | nil => intro s; exact Calls.idle s
  | cons a rest ih =>
      intro s
      cases a with
      | setExport key value =>
          simp only [runFactory]
          exact (Calls.write s x key value).step (ih _)
      | assignExports props =>
          simp only [runFactory]
          exact (Calls.reassign m props s).step (ih _)
      | require id =>
          simp only [runFactory]
          have h1 := hreq id s
          rcases hr : req id s with ⟨s1, o⟩
          rw [hr] at h1
          cases o with
          | value v =>
              exact h1.step ((Calls.log_required s1 id v (propsOf s1 v)).step (ih _))
          | threw e => exact h1
          | outOfFuel => exact h1
      | ensure chunkId =>
          simp only [runFactory]
          have h1 := Calls.ensure chunkId s
          rcases hr : loadModule.e chunkId s with ⟨s1, o⟩
          rw [hr] at h1
          cases o with
          | value v => exact h1.step (ih _)
          | threw e => exact h1
          | outOfFuel => exact h1
      | raise tag =>
          simp only [runFactory]
          exact Calls.idle s

/-- During a call of `loadModule`, the factory of any module `k` is called once
if `k` gets its cache record during the call and has a factory, and is not
called otherwise. -/
theorem loadModule_calls : ∀ (fuel : Nat) (moduleId : String) (s : State),
    Calls s (loadModule fuel moduleId s).1 := by
  intro fuel
  induction fuel with
  | zero => intro m s; exact Calls.idle s
  | succ n ih =>
      intro m s
      cases hcm : cached s m with
      | true =>
          rw [loadModule_cached_state (n + 1) m s hcm]
          exact Calls.idle s
      | false =>
          have hc := cached_false_absent s m hcm
          have hm := objRead_absent_not_inherited _ _ hc
          cases hf : tableGet s.global m with
          | none =>
              rw [loadModule_unregistered n m s hc hf]
              exact Calls.newRecord_unregistered s m hf
          | some f =>
              obtain ⟨s2, o, hr, hg, hres⟩ := loadModule_absent_registered n m s f hc hf
              have h1 := Calls.newRecord_invoke s m f hc hf
              have h2 := runFactory_calls (loadModule n) ih m s.nextObject f
                ((newRecord m s).log (Event.invoke m false s.nextObject))
              have hr1 : runFactory (loadModule n) m s.nextObject f
                  ((newRecord m s).log (Event.invoke m false s.nextObject)) = (s2, o) := hr
              rw [hr1] at h2
              rcases hres with ⟨v, _, hl⟩ | ⟨_, hl⟩
              · rw [hl]
                have hm2 : cached s2 m = true := hg.cache m (cached_newRecord s m hm)
                exact (h1.step h2).step
                  (Calls.of_same (Grows.markLoaded s2 m _) rfl
                    (fun k => cached_markLoaded s2 m _ k hm2))
              · rw [hl]
                exact h1.step h2

/-- A factory whose first actions end normally goes on with the rest of its
body in the state they leave. -/
theorem runFactory_append (req : String → State → State × Outcome Val) (m : String) (x : Nat)
    (pre rest : List Action) :
    ∀ s, (runFactory req m x pre s).2 = Outcome.value Val.undefined →
      runFactory req m x (pre ++ rest) s = runFactory req m x rest (runFactory req m x pre s).1 := by
  induction pre with
  | nil => intro s _; rfl
  | cons a tail ih =>
      intro s h
      cases a with
      | setExport key value =>
          simp only [List.cons_append, runFactory] at h ⊢
          exact ih _ h
      | assignExports props =>
          simp only [List.cons_append, runFactory] at h ⊢
          exact ih _ h
      | require id =>
          simp only [List.cons_append, runFactory] at h ⊢
          rcases hr : req id s with ⟨s1, o⟩
          rw [hr] at h
          cases o with
          | value v =>
              simp only at h ⊢
              exact ih _ h
          | threw e => simp at h
          | outOfFuel => simp at h
      | ensure chunkId =>
          simp only [List.cons_append, runFactory] at h ⊢
          rcases hr : loadModule.e chunkId s with ⟨s1, o⟩
          rw [hr] at h
          cases o with
          | value v =>
              simp only at h ⊢
              exact ih _ h
          | threw e => simp at h
          | outOfFuel => simp at h
      | raise tag =>
          simp [runFactory] at h

/-- From the return of a nested `require` to the end of the factory. -/
theorem runFactory_require_grows (req : String → State → State × Outcome Val)
    (hreq : ∀ id s, Grows s (req id s).1) (m : String) (x : Nat) (id : String)
    (rest : List Action) (s : State) :
    Grows (req id s).1 (runFactory req m x (Action.require id :: rest) s).1 := by
  simp only [runFactory]
  rcases hr : req id s with ⟨s1, o⟩
  cases o with
  | value v =>
      exact ((Grows.refl s1).log (Event.required id v (propsOf s1 v)) (by simp [NestedEvent])).trans
        (runFactory_grows req hreq m x rest _)
  | threw e => exact Grows.refl s1
  | outOfFuel => exact Grows.refl s1

/-- From the moment a nested `require` has returned a value to the end of the
factory. -/
theorem runFactory_require_logs (req : String → State → State × Outcome Val)
    (hreq : ∀ id s, Grows s (req id s).1) (m : String) (x : Nat) (id : String)
    (rest : List Action) (s s1 : State) (v : Val) (hv : req id s = (s1, Outcome.value v)) :
    Grows (s1.log (Event.required id v (propsOf s1 v)))
      (runFactory req m x (Action.require id :: rest) s).1 := by
  simp only [runFactory, hv]
  exact runFactory_grows req hreq m x rest _

/-- From the end of the factory to the end of the call of `loadModule`. -/
theorem loadModule_factory_grows (n : Nat) (m : String) (s : State) (f : Factory)
    (hc : objRead s.loadedModules m = Read.absent) (hf : tableGet s.global m = some f) :
    Grows (factoryRun n m s f).1 (loadModule (n + 1) m s).1 := by
  obtain ⟨s2, o, hr, _, hres⟩ := loadModule_absent_registered n m s f hc hf
  rw [hr]
  rcases hres with ⟨_, _, hl⟩ | ⟨_, hl⟩
  · rw [hl]; exact Grows.markLoaded s2 m _
  · rw [hl]; exact Grows.refl s2

theorem HoldsExports.cached {s : State} {a : String} {x : Nat} (h : HoldsExports s a x) :
    cached s a = true := by
  obtain ⟨r, hr, _⟩ := h
  simp [ICCPlus.cached, hr]

theorem HoldsExports.kept {s s1 : State} {a : String} {x : Nat} (h : HoldsExports s a x)
    (hk : KeepsRecords s s1) : HoldsExports s1 a x := by
  have hc := h.cached
  obtain ⟨r, hr, hx⟩ := h
  exact ⟨r, by rw [hk a hc]; exact hr, hx⟩

theorem HoldsExports.of_others {s s1 : State} {a m : String} {x : Nat} (h : HoldsExports s a x)
    (hk : KeepsOthers m s s1) (hma : m ≠ a) : HoldsExports s1 a x := by
  have hc := h.cached
  obtain ⟨r, hr, hx⟩ := h
  exact ⟨r, by rw [hk.1 a (fun e => hma e.symm) hc]; exact hr, hx⟩

theorem HoldsExports.value {s : State} {a : String} {x : Nat} (h : HoldsExports s a x) :
    cacheValue s a = some (Val.object x) := by
  obtain ⟨r, hr, hx⟩ := h
  simp [cacheValue, hr, hx]

theorem ReturnsOnly.of_trace_eq (a : String) (x : Nat) {s s1 : State}
    (ht : s1.trace = s.trace) : ReturnsOnly a x s s1 := by
  intro v p hmem
  have : traceSince s s1 = [] := traceSince_append s s1 [] (by simp [ht])
  rw [this] at hmem
  simp at hmem

theorem ReturnsOnly.chain {a : String} {x : Nat} {s s1 s2 : State} (g1 : Grows s s1)
    (g2 : Grows s1 s2) (h1 : ReturnsOnly a x s s1) (h2 : ReturnsOnly a x s1 s2) :
    ReturnsOnly a x s s2 := by
  intro v p hmem
  rw [traceSince_chain g1 g2] at hmem
  rcases List.mem_append.mp hmem with h | h
  · exact h1 v p h
  · exact h2 v p h

/-- A cached module whose record names the container `x`: `require` returns
`x`. -/
theorem loadModule_value_of_holds (fuel : Nat) (a : String) (x : Nat) (s : State) (v : Val)
    (h : HoldsExports s a x) (hv : (loadModule fuel a s).2 = Outcome.value v) :
    v = Val.object x := by
  cases fuel with
  | zero => simp [loadModule] at hv
  | succ n =>
      rw [loadModule_cached n a s _ h.value] at hv
      simp only [Outcome.value.injEq] at hv
      exact hv.symm

/-- While a factory runs that cannot assign the `module.exports` of `a`, the
record of `a` names the same container and every `require(a)` returns it. -/
theorem runFactory_returns (a : String) (x : Nat) (req : String → State → State × Outcome Val)
    (hg : ∀ id s, Grows s (req id s).1) (hk : ∀ id s, KeepsRecords s (req id s).1)
    (hr : ∀ id s, HoldsExports s a x → ReturnsOnly a x s (req id s).1)
    (hv : ∀ s v, HoldsExports s a x → (req a s).2 = Outcome.value v → v = Val.object x)
    (m : String) (y : Nat) (acts : List Action) :
    (m ≠ a ∨ acts.any isAssign = false) →
    ∀ s, HoldsExports s a x →
      HoldsExports (runFactory req m y acts s).1 a x ∧
      ReturnsOnly a x s (runFactory req m y acts s).1 := by
  induction acts with
  | nil =>
      intro _ s h
      exact ⟨h, ReturnsOnly.of_trace_eq a x rfl⟩
  | cons act rest ih =>
      intro hm s h
      have hmrest : m ≠ a ∨ rest.any isAssign = false := by
        rcases hm with hm | hm
        · exact Or.inl hm
        · right
          simp only [List.any_cons, Bool.or_eq_false_iff] at hm
          exact hm.2
      cases act with
      | setExport key value =>
          simp only [runFactory]
          have h1 : HoldsExports { s with heap := heapSet s.heap y key value } a x := h
          obtain ⟨h2, h3⟩ := ih hmrest _ h1
          refine ⟨h2, ?_⟩
          exact ReturnsOnly.chain (Grows.heapSet s y key value) (runFactory_grows req hg m y rest _)
            (ReturnsOnly.of_trace_eq a x rfl) h3
      | assignExports props =>
          simp only [runFactory]
          have hma : m ≠ a := by
            rcases hm with hm | hm
            · exact hm
            · simp [isAssign] at hm
          have h1 : HoldsExports (replaceExports m props s) a x :=
            h.of_others (KeepsOthers.assign m props s) hma
          obtain ⟨h2, h3⟩ := ih hmrest _ h1
          refine ⟨h2, ?_⟩
          exact ReturnsOnly.chain (Grows.replaceExports m props s)
            (runFactory_grows req hg m y rest _) (ReturnsOnly.of_trace_eq a x rfl) h3
      | require id =>
          simp only [runFactory]
          have g1 := hg id s
          have k1 := hk id s
          have r1 := hr id s h
          have v1 := hv s
          rcases hreq : req id s with ⟨s1, o⟩
          rw [hreq] at g1 k1 r1
          have h1 : HoldsExports s1 a x := h.kept k1
          cases o with
          | value v =>
              simp only
              have hlog : HoldsExports (s1.log (Event.required id v (propsOf s1 v))) a x := h1
              obtain ⟨h2, h3⟩ := ih hmrest _ hlog
              refine ⟨h2, ?_⟩
              have gl : Grows s1 (s1.log (Event.required id v (propsOf s1 v))) :=
                (Grows.refl s1).log _ (by simp [NestedEvent])
              have rl : ReturnsOnly a x s1 (s1.log (Event.required id v (propsOf s1 v))) := by
                intro v2 p2 hmem
                have : traceSince s1 (s1.log (Event.required id v (propsOf s1 v)))
                    = [Event.required id v (propsOf s1 v)] := traceSince_append s1 _ _ rfl
                rw [this] at hmem
                simp only [List.mem_singleton, Event.required.injEq] at hmem
                obtain ⟨hid, hval, _⟩ := hmem
                subst hid
                rw [hval]
                apply v1 v h
                rw [hreq]
              exact ReturnsOnly.chain g1 (gl.trans (runFactory_grows req hg m y rest _)) r1
                (ReturnsOnly.chain gl (runFactory_grows req hg m y rest _) rl h3)
          | threw e => exact ⟨h1, r1⟩
          | outOfFuel => exact ⟨h1, r1⟩
      | ensure chunkId =>
          simp only [runFactory]
          have g1 := ensure_grows chunkId s
          have k1 : KeepsRecords s (loadModule.e chunkId s).1 :=
            KeepsRecords.of_cache_eq (ensure_cache chunkId s)
          have r1 : ReturnsOnly a x s (loadModule.e chunkId s).1 :=
            ReturnsOnly.of_trace_eq a x (ensure_never_fetches chunkId s)
          rcases hreq : loadModule.e chunkId s with ⟨s1, o⟩
          rw [hreq] at g1 k1 r1
          have h1 : HoldsExports s1 a x := h.kept k1
          cases o with
          | value v =>
              simp only
              obtain ⟨h2, h3⟩ := ih hmrest _ h1
              exact ⟨h2, ReturnsOnly.chain g1 (runFactory_grows req hg m y rest _) r1 h3⟩
          | threw e => exact ⟨h1, r1⟩
          | outOfFuel => exact ⟨h1, r1⟩
      | raise tag =>
          simp only [runFactory]
          exact ⟨h, ReturnsOnly.of_trace_eq a x rfl⟩

/-- During any call of `loadModule` made while `a` is cached, every `require(a)`
returns the container that the record of `a` names. -/
theorem loadModule_returns (a : String) (x : Nat) : ∀ (fuel : Nat) (m : String) (s : State),
    HoldsExports s a x → ReturnsOnly a x s (loadModule fuel m s).1 := by
  intro fuel
  induction fuel with
  | zero => intro m s _; exact ReturnsOnly.of_trace_eq a x rfl
  | succ n ih =>
      intro m s h
      cases hcm : cached s m with
      | true =>
          rw [loadModule_cached_state (n + 1) m s hcm]
          exact ReturnsOnly.of_trace_eq a x rfl
      | false =>
          have hc := cached_false_absent s m hcm
          have hma : m ≠ a := by
            intro e
            rw [e, h.cached] at hcm
            exact absurd hcm (by decide)
          cases hf : tableGet s.global m with
          | none =>
              rw [loadModule_unregistered n m s hc hf]
              exact ReturnsOnly.of_trace_eq a x rfl
          | some f =>
              obtain ⟨s2, o, hrun, hg, hres⟩ := loadModule_absent_registered n m s f hc hf
              have hrun1 : runFactory (loadModule n) m s.nextObject f
                  ((newRecord m s).log (Event.invoke m false s.nextObject)) = (s2, o) := hrun
              have h1 : HoldsExports ((newRecord m s).log (Event.invoke m false s.nextObject)) a x :=
                h.kept (KeepsRecords.objSet_absent s m _ hcm)
              have g1 : Grows s ((newRecord m s).log (Event.invoke m false s.nextObject)) :=
                (Grows.newRecord s m).log _ (by simpa [NestedEvent] using hcm)
              have r1 : ReturnsOnly a x s ((newRecord m s).log (Event.invoke m false s.nextObject)) := by
                intro v p hmem
                have : traceSince s ((newRecord m s).log (Event.invoke m false s.nextObject))
                    = [Event.invoke m false s.nextObject] := traceSince_append s _ _ rfl
                rw [this] at hmem
                simp at hmem
              have h2 := (runFactory_returns a x (loadModule n) (loadModule_grows n)
                (loadModule_keeps n) ih
                (fun s v hs hv => loadModule_value_of_holds n a x s v hs hv)
                m s.nextObject f (Or.inl hma) _ h1).2
              rw [hrun1] at h2
              have r2 : ReturnsOnly a x s s2 := ReturnsOnly.chain g1 hg r1 h2
              rcases hres with ⟨v, _, hl⟩ | ⟨_, hl⟩
              · rw [hl]
                exact ReturnsOnly.chain (g1.trans hg) (Grows.markLoaded s2 m _) r2
                  (ReturnsOnly.of_trace_eq a x rfl)
              · rw [hl]
                exact r2

/-- The outer call on a module `a` whose factory does not assign
`module.exports`: every `require(a)` made during the call returns the container
made on line 134, and the record of `a` names it when the call ends. -/
theorem loadModule_outer_returns (n : Nat) (a : String) (s : State) (f : Factory)
    (hca : cached s a = false) (hf : tableGet s.global a = some f)
    (hassign : f.any isAssign = false) :
    ReturnsOnly a s.nextObject s (loadModule (n + 1) a s).1 ∧
    HoldsExports (loadModule (n + 1) a s).1 a s.nextObject ∧
    ((loadModule (n + 1) a s).2 = Outcome.value (Val.object s.nextObject) ∨
      ∀ v, (loadModule (n + 1) a s).2 ≠ Outcome.value v) := by
  have hc := cached_false_absent s a hca
  have hm := objRead_absent_not_inherited _ _ hc
  obtain ⟨s2, o, x, hrun, hx, hs2, hres⟩ := loadModule_record n a s f hca hf
  have hxe := hx hassign
  subst hxe
  have hrun1 : runFactory (loadModule n) a s.nextObject f
      ((newRecord a s).log (Event.invoke a false s.nextObject)) = (s2, o) := hrun
  have h1 : HoldsExports ((newRecord a s).log (Event.invoke a false s.nextObject)) a s.nextObject :=
    ⟨_, objRead_objSet_same _ _ _ hm, rfl⟩
  have g1 : Grows s ((newRecord a s).log (Event.invoke a false s.nextObject)) :=
    (Grows.newRecord s a).log _ (by simpa [NestedEvent] using hca)
  have g2 := runFactory_grows (loadModule n) (loadModule_grows n) a s.nextObject f
    ((newRecord a s).log (Event.invoke a false s.nextObject))
  rw [hrun1] at g2
  have r1 : ReturnsOnly a s.nextObject s
      ((newRecord a s).log (Event.invoke a false s.nextObject)) := by
    intro v p hmem
    have : traceSince s ((newRecord a s).log (Event.invoke a false s.nextObject))
        = [Event.invoke a false s.nextObject] := traceSince_append s _ _ rfl
    rw [this] at hmem
    simp at hmem
  have h2 := (runFactory_returns a s.nextObject (loadModule n) (loadModule_grows n)
    (loadModule_keeps n) (loadModule_returns a s.nextObject n)
    (fun t v ht hv => loadModule_value_of_holds n a s.nextObject t v ht hv)
    a s.nextObject f (Or.inr hassign) _ h1).2
  rw [hrun1] at h2
  have r2 : ReturnsOnly a s.nextObject s s2 := ReturnsOnly.chain g1 g2 r1 h2
  rcases hres with ⟨v, _, hl, hread⟩ | ⟨hne, hl⟩
  · rw [hl]
    refine ⟨?_, ⟨_, hread, rfl⟩, Or.inl rfl⟩
    exact ReturnsOnly.chain (g1.trans g2) (Grows.markLoaded s2 a _) r2
      (ReturnsOnly.of_trace_eq a s.nextObject rfl)
  · rw [hl]
    exact ⟨r2, ⟨_, hs2, rfl⟩, Or.inr hne⟩

/-- An event logged on the way from `s` to `s2` is among the events logged
between them. -/
theorem mem_traceSince_of_log {s s1 s2 : State} (e : Event) (g1 : Grows s s1)
    (he : NestedEvent s e) (g2 : Grows (s1.log e) s2) : e ∈ traceSince s s2 := by
  have g : Grows s (s1.log e) := g1.log e he
  rw [traceSince_chain g g2]
  apply List.mem_append_left
  obtain ⟨ht1, _⟩ := g1.trace_eq
  have : traceSince s (s1.log e) = traceSince s s1 ++ [e] := by
    apply traceSince_append
    show s1.trace ++ [e] = _
    rw [ht1, List.append_assoc]
  rw [this]
  simp

/-- The factory of `a`, which calls `require(b)` after the actions `preA`, up
to the return of that call, when `preA` ends normally. -/
theorem factoryRun_reaches (n : Nat) (s : State) (a b : String) (preA postA : List Action)
    (hpre : (factoryRun n a s preA).2 = Outcome.value Val.undefined) :
    Grows (loadModule n b (factoryRun n a s preA).1).1
      (factoryRun n a s (preA ++ Action.require b :: postA)).1 ∧
    Grows ((newRecord a s).log (Event.invoke a false s.nextObject)) (factoryRun n a s preA).1 ∧
    ∀ v, loadModule n b (factoryRun n a s preA).1 =
        ((loadModule n b (factoryRun n a s preA).1).1, Outcome.value v) →
      Grows ((loadModule n b (factoryRun n a s preA).1).1.log
          (Event.required b v (propsOf (loadModule n b (factoryRun n a s preA).1).1 v)))
        (factoryRun n a s (preA ++ Action.require b :: postA)).1 := by
  have happ : factoryRun n a s (preA ++ Action.require b :: postA) =
      runFactory (loadModule n) a s.nextObject (Action.require b :: postA)
        (factoryRun n a s preA).1 :=
    runFactory_append (loadModule n) a s.nextObject preA _ _ hpre
  refine ⟨?_, ?_, ?_⟩
  · rw [happ]
    exact runFactory_require_grows (loadModule n) (loadModule_grows n) a s.nextObject b postA _
  · exact runFactory_grows (loadModule n) (loadModule_grows n) a s.nextObject preA _
  · intro v hv
    rw [happ]
    exact runFactory_require_logs (loadModule n) (loadModule_grows n) a s.nextObject b postA _ _ v hv

/-- C14, as stated, fails, in two ways. On the table where the factory of `A`
writes `a`, requires `B` and then assigns a new object to `module.exports`, and
the factory of `B` requires `A`, the `require("A")` made by the factory of `B`
returns container `0`, holding `a`, and the outer `require("A")` returns
container `2`, holding `fresh`. And in a state that already caches `A` and `B`,
whose factories require each other, `require("A")` calls neither factory. -/
theorem C14_counterexample :
    tableGet sampleReassign.global "A" = some ([Action.setExport "a" 1] ++
      Action.require "B" :: [Action.assignExports [("fresh", 1)]]) ∧
    tableGet sampleReassign.global "B" = some ([] ++ Action.require "A" :: []) ∧
    Event.required "A" (Val.object 0) [("a", 1)]
      ∈ traceSince sampleReassign (loadModule 3 "A" sampleReassign).1 ∧
    (loadModule 3 "A" sampleReassign).2 = Outcome.value (Val.object 2) ∧
    (loadModule 3 "A" sampleReassign).1.heap 2 = [("fresh", 1)] ∧
    tableGet sampleAfterRequire.global "A" = some fnA ∧
    tableGet sampleAfterRequire.global "B" = some fnB ∧
    invocations "A" (traceSince sampleAfterRequire (loadModule 3 "A" sampleAfterRequire).1) = 0 ∧
    invocations "B" (traceSince sampleAfterRequire (loadModule 3 "A" sampleAfterRequire).1) = 0 := by
  decide

/-- C14 (amended): let `a` be a module without cache record whose factory calls
`require(b)` after the actions `preA`, and let the factory of `b` call
`require(a)` after the actions `preB`; both may go on in any way. Then
`require(a)` ends (it returns or throws; the recursion stops at the cache), no
factory is called twice, and the factory of `a` is called exactly once. The
factory of `b` is not called when `b` has a cache record already, and is called
exactly once when `b` has none and `preA` ends normally. When the factory of
`a` does not assign `module.exports`: every `require(a)` made while the call
runs returns the container made with the record of `a`, which is what the outer
`require(a)` returns when it returns and what every later `require(a)`
returns; and the factory of `b` does make such a call when `a` and `b` differ,
`preA` ends normally, `b` has no cache record by then, and `preB` ends
normally. -/
theorem C14_circular_require (fuel : Nat) (s : State) (a b : String)
    (preA postA preB postB : List Action)
    (hca : cached s a = false)
    (hfa : tableGet s.global a = some (preA ++ Action.require b :: postA))
    (hfb : tableGet s.global b = some (preB ++ Action.require a :: postB))
    (hfuel : uncachedFactories s < fuel) :
    (loadModule fuel a s).2 ≠ Outcome.outOfFuel ∧
    (∀ k, invocations k (traceSince s (loadModule fuel a s).1) ≤ 1) ∧
    invocations a (traceSince s (loadModule fuel a s).1) = 1 ∧
    (cached s b = true → invocations b (traceSince s (loadModule fuel a s).1) = 0) ∧
    (cached s b = false →
      (factoryRun (fuel - 1) a s preA).2 = Outcome.value Val.undefined →
      invocations b (traceSince s (loadModule fuel a s).1) = 1) ∧
    ((preA ++ Action.require b :: postA).any isAssign = false →
      ReturnsOnly a s.nextObject s (loadModule fuel a s).1 ∧
      ((loadModule fuel a s).2 = Outcome.value (Val.object s.nextObject) ∨
        ∃ e, (loadModule fuel a s).2 = Outcome.threw e) ∧
      (∀ k, loadModule (k + 1) a (loadModule fuel a s).1 =
        ((loadModule fuel a s).1, Outcome.value (Val.object s.nextObject))) ∧
      (a ≠ b →
        (factoryRun (fuel - 1) a s preA).2 = Outcome.value Val.undefined →
        cached (factoryRun (fuel - 1) a s preA).1 b = false →
        (factoryRun (fuel - 2) b (factoryRun (fuel - 1) a s preA).1 preB).2
          = Outcome.value Val.undefined →
        ∃ p, Event.required a (Val.object s.nextObject) p
          ∈ traceSince s (loadModule fuel a s).1)) := by
  have hAabs := cached_false_absent s a hca
  have haP := objRead_absent_not_inherited _ _ hAabs
  have hnofuel := loadModule_fuel_enough fuel a s hfuel
  have hcalls := loadModule_calls fuel a s
  have hu1 := uncached_newRecord_lt s a _ hAabs hfa
  obtain ⟨n, rfl⟩ : ∃ n, fuel = n + 2 := ⟨fuel - 2, by omega⟩
  have hfirst := loadModule_first_call (n + 1) a s _ hAabs hfa
  have hcount : ∀ k, invocations k (traceSince s (loadModule (n + 2) a s).1) ≤ 1 := by
    intro k
    rw [hcalls.counts k]
    split <;> simp
  have g0 : Grows s ((newRecord a s).log (Event.invoke a false s.nextObject)) :=
    (Grows.newRecord s a).log _ (by simpa [NestedEvent] using hca)
  have gEnd := loadModule_factory_grows (n + 1) a s _ hAabs hfa
  have hsub1 : n + 2 - 1 = n + 1 := by omega
  have hsub2 : n + 2 - 2 = n := by omega
  rw [hsub1, hsub2]
  refine ⟨hnofuel, hcount, hfirst.2.1, ?_, ?_, ?_⟩
  · intro hcb
    rw [hcalls.counts b]
    simp [hcb]
  · intro hcb hpre
    obtain ⟨gA, gP, _⟩ := factoryRun_reaches (n + 1) s a b preA postA hpre
    have hcachedB : cached (loadModule (n + 1) b (factoryRun (n + 1) a s preA).1).1 b = true := by
      cases hcP : cached (factoryRun (n + 1) a s preA).1 b with
      | true => exact (loadModule_grows (n + 1) b _).cache b hcP
      | false =>
          have hfbP : tableGet (factoryRun (n + 1) a s preA).1.global b =
              some (preB ++ Action.require a :: postB) := by
            rw [gP.table]; exact hfb
          exact (loadModule_first_call n b _ _ (cached_false_absent _ b hcP) hfbP).1
    have hfin : cached (loadModule (n + 2) a s).1 b = true :=
      gEnd.cache b (gA.cache b hcachedB)
    rw [hcalls.counts b]
    simp [hcb, hfin, registered, hfb]
  · intro hassign
    obtain ⟨hret, hholds, hout⟩ := loadModule_outer_returns (n + 1) a s _ hca hfa hassign
    refine ⟨hret, ?_, ?_, ?_⟩
    · rcases hout with h | h
      · exact Or.inl h
      · right
        cases ho : (loadModule (n + 2) a s).2 with
        | value v => exact absurd ho (h v)
        | threw e => exact ⟨e, rfl⟩
        | outOfFuel => exact absurd ho hnofuel
    · intro k
      exact loadModule_cached k a _ _ hholds.value
    · intro hab hpre hcbP hpreB
      obtain ⟨gA, gP, gLog⟩ := factoryRun_reaches (n + 1) s a b preA postA hpre
      have hBabs := cached_false_absent _ b hcbP
      have hfbP : tableGet (factoryRun (n + 1) a s preA).1.global b =
          some (preB ++ Action.require a :: postB) := by
        rw [gP.table]; exact hfb
      -- the bound covers the call made by the factory of `b`
      have hu2 := uncached_newRecord_lt _ b _ hBabs hfbP
      have hu3 := gP.uncached_le
      have hu4 : uncachedFactories ((newRecord a s).log (Event.invoke a false s.nextObject))
          = uncachedFactories (newRecord a s) := rfl
      obtain ⟨j, rfl⟩ : ∃ j, n = j + 1 := ⟨n - 1, by omega⟩
      -- the record of `a` when the factory of `b` starts
      have hpreAssign : preA.any isAssign = false := by
        simp only [List.any_append, Bool.or_eq_false_iff] at hassign
        exact hassign.1
      have hH1 : HoldsExports ((newRecord a s).log (Event.invoke a false s.nextObject)) a
          s.nextObject := ⟨_, objRead_objSet_same _ _ _ haP, rfl⟩
      have hHP : HoldsExports (factoryRun (j + 2) a s preA).1 a s.nextObject :=
        hH1.kept (runFactory_keeps (loadModule (j + 2)) (loadModule_keeps (j + 2)) a
          s.nextObject preA hpreAssign _)
      have hHB1 : HoldsExports ((newRecord b (factoryRun (j + 2) a s preA).1).log
          (Event.invoke b false (factoryRun (j + 2) a s preA).1.nextObject)) a s.nextObject :=
        hHP.kept (KeepsRecords.objSet_absent _ b _ hcbP)
      have hHQ : HoldsExports (factoryRun (j + 1) b (factoryRun (j + 2) a s preA).1 preB).1 a
          s.nextObject :=
        hHB1.of_others (runFactory_keepsOthers (loadModule (j + 1)) (loadModule_keeps (j + 1)) b
          (factoryRun (j + 2) a s preA).1.nextObject preB _) (fun e => hab e.symm)
      have hreq : loadModule (j + 1) a (factoryRun (j + 1) b (factoryRun (j + 2) a s preA).1 preB).1
          = ((factoryRun (j + 1) b (factoryRun (j + 2) a s preA).1 preB).1,
            Outcome.value (Val.object s.nextObject)) :=
        loadModule_cached j a _ _ hHQ.value
      -- the factory of `b` from that return on
      obtain ⟨_, gQ, gLogB⟩ := factoryRun_reaches (j + 1) (factoryRun (j + 2) a s preA).1 b a
        preB postB hpreB
      have gE := gLogB (Val.object s.nextObject) (by rw [hreq])
      rw [hreq] at gE
      have gBEnd := loadModule_factory_grows (j + 1) b (factoryRun (j + 2) a s preA).1 _ hBabs hfbP
      have gB0 : Grows (factoryRun (j + 2) a s preA).1
          ((newRecord b (factoryRun (j + 2) a s preA).1).log
            (Event.invoke b false (factoryRun (j + 2) a s preA).1.nextObject)) :=
        (Grows.newRecord _ b).log _ (by simpa [NestedEvent] using hcbP)
      refine ⟨_, mem_traceSince_of_log _ (((g0.trans gP).trans gB0).trans gQ)
        (by simp [NestedEvent]) (((gE.trans gBEnd).trans gA).trans gEnd)⟩

/-- C14 (amended) at a table of three modules: the factory of `A` writes `a`,
requires `B` and writes `done`; the factory of `B` requires `C`, then `A`, and
writes `b`. Both factories run once, the factory of `B` gets the container of
`A` back, and the outer `require("A")` returns that container. -/
theorem C14_circular_require_witness :
    cached sampleChain "A" = false ∧ cached sampleChain "B" = false ∧
    tableGet sampleChain.global "A"
      = some ([Action.setExport "a" 1] ++ Action.require "B" :: [Action.setExport "done" 1]) ∧
    tableGet sampleChain.global "B"
      = some ([Action.require "C"] ++ Action.require "A" :: [Action.setExport "b" 2]) ∧
    uncachedFactories sampleChain < 4 ∧
    (factoryRun 3 "A" sampleChain [Action.setExport "a" 1]).2 = Outcome.value Val.undefined ∧
    (factoryRun 2 "B" (factoryRun 3 "A" sampleChain [Action.setExport "a" 1]).1
      [Action.require "C"]).2 = Outcome.value Val.undefined ∧
    (loadModule 4 "A" sampleChain).2 = Outcome.value (Val.object sampleChain.nextObject) ∧
    invocations "A" (traceSince sampleChain (loadModule 4 "A" sampleChain).1) = 1 ∧
    invocations "B" (traceSince sampleChain (loadModule 4 "A" sampleChain).1) = 1 ∧
    ∃ p, Event.required "A" (Val.object sampleChain.nextObject) p
      ∈ traceSince sampleChain (loadModule 4 "A" sampleChain).1 :=
  ⟨by decide, by decide, by decide, by decide, by decide, by decide, by decide, by decide,
    (C14_circular_require 4 sampleChain "A" "B" [Action.setExport "a" 1]
      [Action.setExport "done" 1] [Action.require "C"] [Action.setExport "b" 2] (by decide)
      (by decide) (by decide) (by decide)).2.2.1,
    (C14_circular_require 4 sampleChain "A" "B" [Action.setExport "a" 1]
      [Action.setExport "done" 1] [Action.require "C"] [Action.setExport "b" 2] (by decide)
      (by decide) (by decide) (by decide)).2.2.2.2.1 (by decide) (by decide),
    ((C14_circular_require 4 sampleChain "A" "B" [Action.setExport "a" 1]
      [Action.setExport "done" 1] [Action.require "C"] [Action.setExport "b" 2] (by decide)
      (by decide) (by decide) (by decide)).2.2.2.2.2 (by decide)).2.2.2 (by decide) (by decide)
      (by decide) (by decide)⟩

end ICCPlus
